import Mathlib

/-!
Shallow embedding of the sliding-window analytics core of the repository
(`src/python/system_algo/`): the AtomicBucket/RingBuffer variants of
`event_tracker.py`, `carpark.py` and `orderbook.py`, the CountMinSketch and
RollingCMS of `impression_tracker.py`, the CountMinSketch and TrendingTracker
of `hashtag_tracker.py`, the EventTracker of `event_tracker.py`, and the
InventorySystem of `warehouse.py`.

Modelling conventions, used uniformly below:
* Python `int` is modelled as `ℤ` (timestamps, counts, quantities) or `ℕ`
  (sizes, array indices).  Python floor division `//` and modulo `%` agree
  with `Int.ediv` / `Int.emod` whenever the divisor is positive, which is the
  case at every call site in the sources (bucket sizes, bucket counts, widths
  and the literal 60 are positive); we therefore use `ediv`/`emod`.
* The code is single-threaded here: every `with lock:` region of the Python
  source is a plain sequential block, so locks are dropped and each method
  becomes a pure state-passing function.
* `numpy` tables are modelled as total functions `ℕ → ℕ → ℤ`; Python lists of
  buckets as total functions `ℕ → Bucket` (all accesses in the source are
  through `... % num_buckets`, which stays below `num_buckets`).
* Machine widths: the `hashtag_tracker` table dtype is the signed `int`, and
  its cells are idealised as unbounded `ℤ`.  The `impression_tracker` table
  dtype is `np.uint64`, whose in-place subtraction wraps modulo `2 ** 64` and
  whose `np.maximum(..., 0)` is a no-op; that cell update is modelled
  faithfully by `IMP.CountMinSketch.minus64`, while the unbounded idealisation
  `IMP.CountMinSketch.minus` (clamp at zero) is used only where the two agree
  — when the minuend is at least the subtrahend, the regime the
  merged-invariant development stays in.
* `mmh3.hash(item, seed)` is an external library function not in the
  repository; it is modelled as an arbitrary parameter
  `H : ℤ → String → ℤ` (seed → item → hash), so every theorem quantifying
  over `H` holds for the real hash in particular.
* Python `dict`s whose key-membership or emptiness tests are observable are
  modelled as association lists (insertion-ordered, like `dict`); `dict`s
  that are only ever read with a default (`defaultdict`, `.get(k, 0)`,
  `.setdefault`) are modelled as total functions with that default, which is
  extensionally equivalent.
* A Python statement that can raise (`del d[k]` on a missing key, `d[k]` on a
  missing key) makes the enclosing method return `Option _`, with `none` for
  the propagated exception.
-/

namespace ET

/-- Model of `event_tracker.AtomicBucket`: `(count, start_time)` cell. -/
structure AtomicBucket where
  count : ℤ
  start_time : ℤ
  deriving DecidableEq, Repr

/-- Model of `AtomicBucket()` constructor: both fields start at 0. -/
def AtomicBucket.init : AtomicBucket := ⟨0, 0⟩

/-- Model of `event_tracker.AtomicBucket.add`: ignore older eras, replace on newer
eras, accumulate on the same era. -/
def AtomicBucket.add (b : AtomicBucket) (start_time count : ℤ) : AtomicBucket :=
  if start_time < b.start_time then b
  else if b.start_time < start_time then ⟨count, start_time⟩
  else ⟨b.count + count, b.start_time⟩

/-- Model of `event_tracker.AtomicBucket.minus`: saturating subtraction, only when the
era matches exactly. -/
def AtomicBucket.minus (b : AtomicBucket) (start_time count : ℤ) : AtomicBucket :=
  if start_time < b.start_time then b
  else if start_time = b.start_time then ⟨max (b.count - count) 0, b.start_time⟩
  else b

/-- One abstract call against an `event_tracker.AtomicBucket`. -/
inductive BucketOp where
  | add (start_time count : ℤ)
  | minus (start_time count : ℤ)
  deriving DecidableEq, Repr

/-- An `add` call is well-formed when its count is nonnegative (the repository
only ever adds count 1); `minus` is unrestricted. -/
def BucketOp.ok : BucketOp → Bool
  | .add _ count => decide (0 ≤ count)
  | .minus _ _ => true

/-- Run a sequence of calls against a bucket. -/
def applyBucketOps (b : AtomicBucket) : List BucketOp → AtomicBucket
  | [] => b
  | .add st c :: rest => applyBucketOps (b.add st c) rest
  | .minus st c :: rest => applyBucketOps (b.minus st c) rest

/-- Model of `event_tracker.RingBuffer`: fixed circular array of AtomicBuckets. -/
structure RingBuffer where
  window_seconds : ℕ
  bucket_size : ℕ
  num_buckets : ℕ
  buckets : ℕ → AtomicBucket

/-- Model of `RingBuffer.__init__`: `num_buckets = window_seconds // bucket_size + 1`. -/
def RingBuffer.init (window_seconds bucket_size : ℕ) : RingBuffer :=
  { window_seconds := window_seconds
    bucket_size := bucket_size
    num_buckets := window_seconds / bucket_size + 1
    buckets := fun _ => AtomicBucket.init }

/-- Model of `RingBuffer._get_start_time`. -/
def RingBuffer.get_start_time (rb : RingBuffer) (timestamp : ℤ) : ℤ :=
  timestamp.ediv rb.bucket_size * rb.bucket_size

/-- Model of `RingBuffer._get_bucket_index`. -/
def RingBuffer.get_bucket_index (rb : RingBuffer) (timestamp : ℤ) : ℕ :=
  ((timestamp.ediv rb.bucket_size).emod rb.num_buckets).toNat

/-- Model of `event_tracker.RingBuffer.add`. -/
def RingBuffer.add (rb : RingBuffer) (timestamp : ℤ) (count : ℤ) : RingBuffer :=
  let st := rb.get_start_time timestamp
  let i := rb.get_bucket_index timestamp
  { rb with buckets := Function.update rb.buckets i ((rb.buckets i).add st count) }

/-- Model of `event_tracker.RingBuffer.minus`. -/
def RingBuffer.minus (rb : RingBuffer) (timestamp : ℤ) (count : ℤ) : RingBuffer :=
  let st := rb.get_start_time timestamp
  let i := rb.get_bucket_index timestamp
  { rb with buckets := Function.update rb.buckets i ((rb.buckets i).minus st count) }

/-- Model of `event_tracker.Event` dataclass. -/
structure Event where
  event_id : String
  user_id : String
  event_type : String
  timestamp : ℤ
  deriving DecidableEq, Repr

end ET

namespace CP

/-- Model of `carpark.AtomicBucket`: `(start_time, quantity)` cell. -/
structure AtomicBucket where
  start_time : ℤ
  quantity : ℤ
  deriving DecidableEq, Repr

/-- Model of `AtomicBucket()` constructor. -/
def AtomicBucket.init : AtomicBucket := ⟨0, 0⟩

/-- Model of `carpark.AtomicBucket.add`: accumulate on the same era, replace on a newer
era, and (implicitly, by falling through both branches) ignore older eras. -/
def AtomicBucket.add (b : AtomicBucket) (start_time quantity : ℤ) : AtomicBucket :=
  if start_time = b.start_time then ⟨b.start_time, b.quantity + quantity⟩
  else if b.start_time < start_time then ⟨start_time, quantity⟩
  else b

/-- Model of `carpark.RingBuffer`. -/
structure RingBuffer where
  window_seconds : ℕ
  bucket_size : ℕ
  num_buckets : ℕ
  buckets : ℕ → AtomicBucket

/-- Model of `carpark.RingBuffer.__init__`: `num_buckets = window_seconds // bucket_size + 1`
(the `num_shards` parameter of the Python constructor is unused there). -/
def RingBuffer.init (window_seconds bucket_size : ℕ) : RingBuffer :=
  { window_seconds := window_seconds
    bucket_size := bucket_size
    num_buckets := window_seconds / bucket_size + 1
    buckets := fun _ => AtomicBucket.init }

/-- Model of `carpark.RingBuffer._get_bucket_start_time`. -/
def RingBuffer.get_bucket_start_time (rb : RingBuffer) (timestamp : ℤ) : ℤ :=
  timestamp.ediv rb.bucket_size * rb.bucket_size

/-- Model of `carpark.RingBuffer._get_bucket_index`. -/
def RingBuffer.get_bucket_index (rb : RingBuffer) (timestamp : ℤ) : ℕ :=
  ((timestamp.ediv rb.bucket_size).emod rb.num_buckets).toNat

/-- Model of `carpark.RingBuffer.add`. -/
def RingBuffer.add (rb : RingBuffer) (timestamp : ℤ) (quantity : ℤ) : RingBuffer :=
  let st := rb.get_bucket_start_time timestamp
  let i := rb.get_bucket_index timestamp
  { rb with buckets := Function.update rb.buckets i ((rb.buckets i).add st quantity) }

/-- Model of `carpark.RingBuffer.total(cutoff)`: sum the quantity of every bucket whose
stored start_time is at or after the cutoff's era (boundary inclusive). -/
def RingBuffer.total (rb : RingBuffer) (cutoff : ℤ) : ℤ :=
  let cutoff_start_time := rb.get_bucket_start_time cutoff
  ∑ i in Finset.range rb.num_buckets,
    (if cutoff_start_time ≤ (rb.buckets i).start_time then (rb.buckets i).quantity else 0)

/-- Model of `carpark.CarparkEventType`. -/
inductive CarparkEventType where
  | ENTER
  | EXIT
  deriving DecidableEq, Repr

/-- Model of `carpark.CarparkTracker` state.  `capacities` is a plain dict with
observable key membership, modelled as `String → Option ℤ`; `lot_occupancy`
and `occupancy_snapshots` are lazily-populated dicts only ever read with an
empty default, modelled as total functions; the two ring-buffer dicts are
populated for every capacity key at construction and only accessed for known
lots, modelled as total functions. -/
structure CarparkTracker where
  capacities : String → Option ℤ
  max_delay : ℤ
  window_seconds : ℤ
  bucket_size : ℕ
  current_time : ℤ
  lot_occupancy : String → Finset String
  enter_time_buckets : String → RingBuffer
  exit_time_buckets : String → RingBuffer
  occupancy_snapshots : String → List (ℤ × ℤ)

/-- Model of `CarparkTracker.__init__`. -/
def CarparkTracker.init (capacities : String → Option ℤ) (max_delay : ℤ)
    (window_seconds : ℕ) (bucket_size : ℕ) : CarparkTracker :=
  { capacities := capacities
    max_delay := max_delay
    window_seconds := (window_seconds : ℤ)
    bucket_size := bucket_size
    current_time := 0
    lot_occupancy := fun _ => ∅
    enter_time_buckets := fun _ => RingBuffer.init window_seconds bucket_size
    exit_time_buckets := fun _ => RingBuffer.init window_seconds bucket_size
    occupancy_snapshots := fun _ => [] }

/-- Model of `CarparkTracker._record_occupancy`: returns whether the event was applied,
together with the new state. -/
def CarparkTracker.record_occupancy (s : CarparkTracker) (lot_id car_id : String)
    (event_type : CarparkEventType) : Bool × CarparkTracker :=
  let lot := s.lot_occupancy lot_id
  match event_type with
  | .ENTER =>
    if (s.capacities lot_id).getD 0 ≤ (lot.card : ℤ) ∨ car_id ∈ lot then (false, s)
    else (true, { s with lot_occupancy := Function.update s.lot_occupancy lot_id (insert car_id lot) })
  | .EXIT =>
    if car_id ∉ lot then (false, s)
    else (true, { s with lot_occupancy := Function.update s.lot_occupancy lot_id (lot.erase car_id) })

/-- Model of `CarparkTracker._record_occupancy_snapshot`: only at timestamps that are
multiples of 60; trims entries at or before `current_time - window_seconds`. -/
def CarparkTracker.record_occupancy_snapshot (s : CarparkTracker) (lot_id : String)
    (timestamp : ℤ) : CarparkTracker :=
  if timestamp.emod 60 = 0 then
    let occupancy := ((s.lot_occupancy lot_id).card : ℤ)
    let appended := s.occupancy_snapshots lot_id ++ [(timestamp, occupancy)]
    let cutoff := s.current_time - s.window_seconds
    { s with occupancy_snapshots :=
        Function.update s.occupancy_snapshots lot_id (appended.filter (fun p => cutoff < p.1)) }
  else s

/-- Model of `carpark.CarparkTracker.record_event`.  Unknown lots, stale events and
occupancy-rejected events return with no state change (in particular without
advancing `current_time`). -/
def CarparkTracker.record_event (s : CarparkTracker) (lot_id car_id : String)
    (event_type : CarparkEventType) (timestamp : ℤ) : CarparkTracker :=
  if (s.capacities lot_id).isNone then s
  else if timestamp < s.current_time - s.max_delay then s
  else
    match s.record_occupancy lot_id car_id event_type with
    | (false, s1) => s1
    | (true, s1) =>
      let s2 := s1.record_occupancy_snapshot lot_id timestamp
      let s3 :=
        match event_type with
        | .ENTER =>
          { s2 with enter_time_buckets :=
              (Function.update s2.enter_time_buckets lot_id
                ((s2.enter_time_buckets lot_id).add timestamp 1)) }
        | .EXIT =>
          { s2 with exit_time_buckets :=
              (Function.update s2.exit_time_buckets lot_id
                ((s2.exit_time_buckets lot_id).add timestamp 1)) }
      { s3 with current_time := max s3.current_time timestamp }

end CP

namespace OB

/-- Model of `orderbook.AtomicBucket`: `(start_time, quantity)` cell. -/
structure AtomicBucket where
  start_time : ℤ
  quantity : ℤ
  deriving DecidableEq, Repr

/-- Model of `AtomicBucket()` constructor. -/
def AtomicBucket.init : AtomicBucket := ⟨0, 0⟩

/-- Model of `orderbook.AtomicBucket.reset_and_add`: unconditionally overwrite the cell. -/
def AtomicBucket.reset_and_add (_ : AtomicBucket) (start_time quantity : ℤ) : AtomicBucket :=
  ⟨start_time, quantity⟩

/-- Model of `orderbook.AtomicBucket.add_if_same_time`. -/
def AtomicBucket.add_if_same_time (b : AtomicBucket) (start_time quantity : ℤ) :
    Bool × AtomicBucket :=
  if b.start_time = start_time then (true, ⟨b.start_time, b.quantity + quantity⟩)
  else (false, b)

/-- Model of `orderbook.AtomicBucket.subtract_if_same_time`: note the subtraction is
NOT clamped at zero. -/
def AtomicBucket.subtract_if_same_time (b : AtomicBucket) (start_time quantity : ℤ) :
    AtomicBucket :=
  if b.start_time = start_time then ⟨b.start_time, b.quantity - quantity⟩
  else b

/-- Model of `orderbook.AtomicBucket.get_quantity_if_valid`: clamps the stored quantity
at zero on read. -/
def AtomicBucket.get_quantity_if_valid (b : AtomicBucket) (cutoff_time : ℤ) : ℤ :=
  if cutoff_time ≤ b.start_time then max 0 b.quantity else 0

/-- Model of `orderbook.RingBuffer`. -/
structure RingBuffer where
  window_seconds : ℕ
  bucket_size : ℕ
  num_buckets : ℕ
  buckets : ℕ → AtomicBucket

/-- Model of `orderbook.RingBuffer.__init__`: note `num_buckets = window_seconds //
bucket_size`, with no extra slot (the `num_stripes` parameter is unused). -/
def RingBuffer.init (window_seconds bucket_size : ℕ) : RingBuffer :=
  { window_seconds := window_seconds
    bucket_size := bucket_size
    num_buckets := window_seconds / bucket_size
    buckets := fun _ => AtomicBucket.init }

/-- Model of `orderbook.RingBuffer._get_bucket_index`. -/
def RingBuffer.get_bucket_index (rb : RingBuffer) (timestamp : ℤ) : ℕ :=
  ((timestamp.ediv rb.bucket_size).emod rb.num_buckets).toNat

/-- Model of `orderbook.RingBuffer._get_bucket_start_time`. -/
def RingBuffer.get_bucket_start_time (rb : RingBuffer) (timestamp : ℤ) : ℤ :=
  timestamp.ediv rb.bucket_size * rb.bucket_size

/-- Model of `orderbook.RingBuffer.total`: sum of all strictly positive bucket values. -/
def RingBuffer.total (rb : RingBuffer) : ℤ :=
  ∑ i in Finset.range rb.num_buckets,
    (if 0 < (rb.buckets i).quantity then (rb.buckets i).quantity else 0)

/-- Model of `orderbook.RingBuffer.add`: try `add_if_same_time`, else `reset_and_add`
(which also fires on a STALE era); returns the new state with `total()`. -/
def RingBuffer.add (rb : RingBuffer) (timestamp : ℤ) (count : ℤ) : RingBuffer × ℤ :=
  let i := rb.get_bucket_index timestamp
  let st := rb.get_bucket_start_time timestamp
  let b := rb.buckets i
  let b1 :=
    match b.add_if_same_time st count with
    | (true, b1) => b1
    | (false, _) => b.reset_and_add st count
  let rb1 := { rb with buckets := Function.update rb.buckets i b1 }
  (rb1, rb1.total)

/-- Model of `orderbook.RingBuffer.minus`: saturating only in the sense that nothing
clamps — see `AtomicBucket.subtract_if_same_time`. -/
def RingBuffer.minus (rb : RingBuffer) (timestamp : ℤ) (count : ℤ) : RingBuffer × ℤ :=
  let i := rb.get_bucket_index timestamp
  let st := rb.get_bucket_start_time timestamp
  let rb1 := { rb with buckets :=
      (Function.update rb.buckets i ((rb.buckets i).subtract_if_same_time st count)) }
  (rb1, rb1.total)

end OB

namespace IMP

/-- Model of `impression_tracker.CountMinSketch`: a `depth × width` table plus a
`start_time` era tag (the per-bucket sketches of the RollingCMS reuse the
era-comparison discipline of AtomicBucket). -/
structure CountMinSketch where
  width : ℕ
  depth : ℕ
  table : ℕ → ℕ → ℤ
  start_time : ℤ

/-- Model of `CountMinSketch.__init__`. -/
def CountMinSketch.init (width depth : ℕ) : CountMinSketch :=
  { width := width, depth := depth, table := fun _ _ => 0, start_time := 0 }

variable (H : ℤ → String → ℤ)

/-- Model of `CountMinSketch.get_col_index`: `mmh3.hash(item, 30*i) % width`, with the
external hash function abstracted as `H`. -/
def CountMinSketch.get_col_index (c : CountMinSketch) (row_index : ℕ) (item : String) : ℕ :=
  ((H (30 * row_index) item).emod c.width).toNat

/-- The row-update loop shared by every branch of `CountMinSketch.add`:
increment `table[i][h_i(item)]` by `count` for each row `i < depth`. -/
def CountMinSketch.add_rows (c : CountMinSketch) (item : String) (count : ℤ) : CountMinSketch :=
  { c with table := fun i j =>
      if i < c.depth ∧ j = c.get_col_index H i item then c.table i j + count else c.table i j }

/-- Model of `impression_tracker.CountMinSketch.add`.  `start_time` is `int | None`;
Python truthiness makes both era guards fire only when it is a nonzero
integer.  A stale nonzero era returns without touching the table; a newer
nonzero era clears the table and adopts the era before adding. -/
def CountMinSketch.add (c : CountMinSketch) (item : String) (start_time : Option ℤ)
    (count : ℤ) : CountMinSketch :=
  match start_time with
  | some st =>
    if st ≠ 0 ∧ st < c.start_time then c
    else if st ≠ 0 ∧ c.start_time < st then
      CountMinSketch.add_rows H { c with table := fun _ _ => 0, start_time := st } item count
    else CountMinSketch.add_rows H c item count
  | none => CountMinSketch.add_rows H c item count

/-- Idealisation of `impression_tracker.CountMinSketch.minus` over unbounded
integers: cell-wise `max(a - b, 0)`, a no-op when the shapes disagree.  The
source table dtype is `np.uint64` (impression_tracker.py:39), where
`self.table -= other.table` wraps each cell modulo `2 ** 64` and the following
`np.maximum(self.table, 0)` never changes an unsigned array; the clamp written
here coincides with that wrapping update exactly when the minuend is at least
the subtrahend and their difference stays below `2 ** 64` (then both equal the
exact difference), which is the regime `RollingCMS.add` is kept in by the
merged-invariant development below.  The machine-level cell update itself is
modelled faithfully by `minus64` next. -/
def CountMinSketch.minus (c other : CountMinSketch) : CountMinSketch :=
  if c.width = other.width ∧ c.depth = other.depth then
    { c with table := fun i j => max (c.table i j - other.table i j) 0 }
  else c

/-- Faithful machine-level model of `impression_tracker.CountMinSketch.minus`:
on the `np.uint64` table, `self.table -= other.table` subtracts each cell
modulo `2 ** 64` (so `0 - 5` wraps to `2 ** 64 - 5`) and the subsequent
`np.maximum(self.table, 0)` is a no-op because unsigned cells are never below
zero — the subtraction does not saturate.  A shape disagreement is a no-op, as
in the source. -/
def CountMinSketch.minus64 (c other : CountMinSketch) : CountMinSketch :=
  if c.width = other.width ∧ c.depth = other.depth then
    { c with table := fun i j => (c.table i j - other.table i j) % (2 ^ 64) }
  else c

/-- Model of `impression_tracker.RollingCMS`: a ring of per-bucket sketches plus a
`merged` sketch covering the whole window. -/
structure RollingCMS where
  window_seconds : ℕ
  bucket_size : ℕ
  num_buckets : ℕ
  width : ℕ
  depth : ℕ
  buckets : ℕ → CountMinSketch
  merged : CountMinSketch

/-- Model of `RollingCMS.__init__`: `num_buckets = window_seconds // bucket_size + 1`. -/
def RollingCMS.init (window_seconds bucket_size width depth : ℕ) : RollingCMS :=
  { window_seconds := window_seconds
    bucket_size := bucket_size
    num_buckets := window_seconds / bucket_size + 1
    width := width
    depth := depth
    buckets := fun _ => CountMinSketch.init width depth
    merged := CountMinSketch.init width depth }

/-- Model of `RollingCMS._get_start_time`. -/
def RollingCMS.get_start_time (r : RollingCMS) (timestamp : ℤ) : ℤ :=
  timestamp.ediv r.bucket_size * r.bucket_size

/-- Model of `RollingCMS._get_bucket_index` (applied to the era, as in the source). -/
def RollingCMS.get_bucket_index (r : RollingCMS) (start_time : ℤ) : ℕ :=
  ((start_time.ediv r.bucket_size).emod r.num_buckets).toNat

/-- Model of `impression_tracker.RollingCMS.add`: when the target bucket holds an older
nonzero era, subtract it from `merged` first; then add to the bucket (with the
era guard of `CountMinSketch.add`) and unconditionally to `merged`. -/
def RollingCMS.add (r : RollingCMS) (item : String) (timestamp : ℤ) (count : ℤ) : RollingCMS :=
  let start_time := r.get_start_time timestamp
  let bucket_index := r.get_bucket_index start_time
  let bucket := r.buckets bucket_index
  let merged1 :=
    if bucket.start_time ≠ 0 ∧ bucket.start_time < start_time then r.merged.minus bucket
    else r.merged
  { r with
    buckets := (Function.update r.buckets bucket_index (bucket.add H item (some start_time) count))
    merged := merged1.add H item none count }

/-- Cell-wise agreement of `merged` with the sum of all bucket sketches —
the invariant claimed by the specification for RollingCMS. -/
def RollingCMS.mergedEqSum (r : RollingCMS) : Prop :=
  ∀ i j, r.merged.table i j = ∑ b in Finset.range r.num_buckets, (r.buckets b).table i j

/-- Precondition on one `add` call under which the invariant is preserved:
nonnegative count, a strictly positive era (i.e. `timestamp ≥ bucket_size`,
avoiding the `start_time == 0` never-initialised sentinel), and an era at
least as new as the one stored in the target bucket (no stale add). -/
def RollingCMS.okAdd (r : RollingCMS) (a : String × ℤ × ℤ) : Bool :=
  decide (0 ≤ a.2.2) &&
  decide (0 < r.get_start_time a.2.1) &&
  decide ((r.buckets (r.get_bucket_index (r.get_start_time a.2.1))).start_time
            ≤ r.get_start_time a.2.1)

/-- Run a sequence of `add` calls against a RollingCMS. -/
def RollingCMS.applyAdds (r : RollingCMS) : List (String × ℤ × ℤ) → RollingCMS
  | [] => r
  | a :: rest => RollingCMS.applyAdds (r.add H a.1 a.2.1 a.2.2) rest

/-- Every call of the sequence satisfies `okAdd` in the state it runs in. -/
def RollingCMS.okSeq (r : RollingCMS) : List (String × ℤ × ℤ) → Bool
  | [] => true
  | a :: rest => r.okAdd a && RollingCMS.okSeq (r.add H a.1 a.2.1 a.2.2) rest

/-- The inductive invariant of a RollingCMS: all sketches share the ring's
shape, all bucket cells are nonnegative, a bucket still tagged with the
never-initialised sentinel era 0 is empty, and `merged` is the cell-wise sum
of the buckets. -/
def RollingCMS.Inv (r : RollingCMS) : Prop :=
  (∀ b, (r.buckets b).width = r.width ∧ (r.buckets b).depth = r.depth) ∧
  (r.merged.width = r.width ∧ r.merged.depth = r.depth) ∧
  (∀ b i j, 0 ≤ (r.buckets b).table i j) ∧
  (∀ b, (r.buckets b).start_time = 0 → ∀ i j, (r.buckets b).table i j = 0) ∧
  r.mergedEqSum

end IMP

namespace HT

/-- Model of `hashtag_tracker.CountMinSketch`: plain `depth × width` table, no era. -/
structure CountMinSketch where
  width : ℕ
  depth : ℕ
  table : ℕ → ℕ → ℤ

/-- Model of `CountMinSketch.__init__`. -/
def CountMinSketch.init (width depth : ℕ) : CountMinSketch :=
  { width := width, depth := depth, table := fun _ _ => 0 }

variable (H : ℤ → String → ℤ)

/-- Column index for row `i`: `mmh3.hash(item, 31*i) % width`. -/
def CountMinSketch.col_index (c : CountMinSketch) (i : ℕ) (item : String) : ℕ :=
  ((H (31 * i) item).emod c.width).toNat

/-- Model of `hashtag_tracker.CountMinSketch.add` (its Python return value — the fresh
estimate, consumed only by the trending top-K heap — is dropped here). -/
def CountMinSketch.add (c : CountMinSketch) (item : String) (count : ℤ) : CountMinSketch :=
  { c with table := fun i j =>
      if i < c.depth ∧ j = c.col_index H i item then c.table i j + count else c.table i j }

/-- Python `min` of a nonempty list (the `[]` case is never reached when
`depth > 0`; Python would raise there). -/
def listMin : List ℤ → ℤ
  | [] => 0
  | x :: xs => xs.foldl min x

/-- Model of `hashtag_tracker.CountMinSketch.estimate`: minimum over the rows of the
cell the item hashes to. -/
def CountMinSketch.estimate (c : CountMinSketch) (item : String) : ℤ :=
  listMin ((List.range c.depth).map (fun i => c.table i (c.col_index H i item)))

/-- Model of `hashtag_tracker.CountMinSketch.subtract`: this table's dtype is
the signed `int` (hashtag_tracker.py:32), so `self.table -= other.table` is
exact and `np.maximum(self.table, 0)` genuinely clamps every cell at zero.
The leading `assert` on matching shapes raises on a mismatch, modelled as
`none`. -/
def CountMinSketch.subtract (c other : CountMinSketch) : Option CountMinSketch :=
  if c.width = other.width ∧ c.depth = other.depth then
    some { c with table := fun i j => max (c.table i j - other.table i j) 0 }
  else none

/-- Run a sequence of `add(item, count)` calls. -/
def CountMinSketch.applyAdds (c : CountMinSketch) : List (String × ℤ) → CountMinSketch
  | [] => c
  | a :: rest => CountMinSketch.applyAdds (c.add H a.1 a.2) rest

/-- The exact count of `k` in a sequence of `add` calls: the sum of the counts
added for `k`. -/
def trueCount (L : List (String × ℤ)) (k : String) : ℤ :=
  ((L.filter (fun p => p.1 = k)).map Prod.snd).sum

/-- Model of `bisect.bisect_right(timestamps, x)` on the sorted timestamp lists used by
the tracker: the number of elements `≤ x` (the rightmost insertion point). -/
def bisectRight (l : List ℤ) (x : ℤ) : ℕ :=
  l.countP (fun t => decide (t ≤ x))

/-- Append a timestamp to the hashtag's list in the insertion-ordered dict
`hashtag_timestamps` (`defaultdict(list)` semantics). -/
def alAppendTs : List (String × List ℤ) → String → ℤ → List (String × List ℤ)
  | [], tag, ts => [(tag, [ts])]
  | (t, l) :: rest, tag, ts =>
    if t = tag then (t, l ++ [ts]) :: rest else (t, l) :: alAppendTs rest tag ts

/-- Model of `hashtag_tracker.TrendingTracker` state.  The rolling CMS and the global
top-K heap are auxiliary approximate structures that none of the exact-count
or observed-time behaviour below reads; they are outside the modelled state
(the `rolling_cms.add` / `_update_global_heap` calls of `record_post` touch
only them).  `hashtag_timestamps` is insertion-ordered with observable
emptiness, hence an association list. -/
structure TrendingTracker where
  window_seconds : ℤ
  bucket_size : ℤ
  K : ℕ
  hashtag_timestamps : List (String × List ℤ)
  current_time : ℤ
  posts_since_cleanup : ℕ
  clean_every_n_posts : ℕ

/-- Model of `TrendingTracker.__init__`. -/
def TrendingTracker.init (window_seconds : ℤ) (K : ℕ) (clean_every_n_posts : ℕ) :
    TrendingTracker :=
  { window_seconds := window_seconds
    bucket_size := 10
    K := K
    hashtag_timestamps := []
    current_time := 0
    posts_since_cleanup := 0
    clean_every_n_posts := clean_every_n_posts }

/-- Model of `TrendingTracker._cleanup_old_data` (the `rolling_cms.cleanup_old_data`
call touches only the unmodelled sketch).  Empty tracker: early return before
the counter reset.  Otherwise every hashtag keeps the strict suffix of
timestamps after `cutoff_time` and empty entries are popped. -/
def TrendingTracker.cleanup_old_data (s : TrendingTracker) (cutoff_time : ℤ) : TrendingTracker :=
  if s.hashtag_timestamps = [] then s
  else
    { s with
      hashtag_timestamps := s.hashtag_timestamps.filterMap (fun p =>
        let l1 := p.2.drop (bisectRight p.2 cutoff_time)
        if l1 = [] then none else some (p.1, l1))
      posts_since_cleanup := 0 }

/-- Model of `hashtag_tracker.TrendingTracker.record_post`: advance `current_time` to
the max, append the timestamp, bump the cleanup counter and trigger cleanup
every `clean_every_n_posts` posts. -/
def TrendingTracker.record_post (s : TrendingTracker) (hashtag : String) (timestamp : ℤ) :
    TrendingTracker :=
  let s1 := { s with current_time := max s.current_time timestamp }
  let s2 := { s1 with hashtag_timestamps := alAppendTs s1.hashtag_timestamps hashtag timestamp }
  let posts := s2.posts_since_cleanup
  let s3 := { s2 with posts_since_cleanup := posts + 1 }
  if s3.clean_every_n_posts ≤ posts then s3.cleanup_old_data (timestamp - s3.window_seconds)
  else s3

/-- Model of `TrendingTracker._count_timestamps_in_window`: `len(timestamps)` minus the
rightmost insertion point of the cutoff, i.e. the number of recorded
timestamps STRICTLY after `cutoff_time`. -/
def TrendingTracker.count_timestamps_in_window (s : TrendingTracker) (hashtag : String)
    (cutoff_time : ℤ) : ℕ :=
  let timestamps := (s.hashtag_timestamps.lookup hashtag).getD []
  if timestamps = [] then 0
  else timestamps.length - bisectRight timestamps cutoff_time

/-- Run a sequence of `record_post(hashtag, timestamp)` calls. -/
def TrendingTracker.applyPosts (s : TrendingTracker) : List (String × ℤ) → TrendingTracker
  | [] => s
  | p :: rest => TrendingTracker.applyPosts (s.record_post p.1 p.2) rest

end HT

namespace ET

/-- Model of `event_tracker.EventTracker` state, restricted to the fields
`delete_event` reads or writes.  `events`, `users` and `event_type_rbs` are
dicts whose missing-key accesses raise, hence `Option`-valued maps;
`event_type_user_event_counts` is only ever read through membership guards
that skip absent keys — behaviourally a total map with default 0, since the
guarded decrement `max(0, v−1)` fixes 0. -/
structure EventTracker where
  window_seconds : ℤ
  bucket_size : ℤ
  users : String → Option (Finset String)
  events : String → Option Event
  event_type_rbs : String → Option RingBuffer
  event_type_user_event_counts : String → String → ℤ
  event_types : Finset String
  current_time : ℤ

/-- Model of `event_tracker.EventTracker.delete_event`.  Returns `none` when the Python
code would raise (`event_type_rbs[...]` or `users[...]` on a missing key —
unreachable from the tracker's own API), otherwise the new state and the
returned boolean.  An event older than the window is fully removed from the
metadata but the ring buffer is NOT decremented, and `False` is returned. -/
def EventTracker.delete_event (s : EventTracker) (event_id : String) :
    Option (EventTracker × Bool) :=
  match s.events event_id with
  | none => some (s, false)
  | some event =>
    let now := s.current_time
    let old_timestamp := event.timestamp
    match s.event_type_rbs event.event_type with
    | none => none
    | some rb =>
      match s.users event.user_id with
      | none => none
      | some user_events =>
        let s1 := { s with
          events := (Function.update s.events event_id none)
          users := (Function.update s.users event.user_id (some (user_events.erase event_id)))
          event_type_user_event_counts := fun et u =>
            if et = event.event_type ∧ u = event.user_id then
              max 0 (s.event_type_user_event_counts et u - 1)
            else s.event_type_user_event_counts et u }
        if old_timestamp < now - s.window_seconds then some (s1, false)
        else
          some ({ s1 with event_type_rbs :=
                   (Function.update s1.event_type_rbs event.event_type
                      (some (rb.minus old_timestamp 1))) }, true)

end ET

namespace WH

/-- Model of `warehouse.InventoryStockOperation`. -/
inductive StockOp where
  | ADD
  | DEL
  | TFR
  deriving DecidableEq, Repr

/-- Idempotency key of `_dedup_request`: `(op, item_id, timestamp, warehouse_ids)`. -/
abbrev DedupKey := StockOp × ℤ × ℤ × List ℤ

/-- Audit entry `(timestamp, operation, warehouse_id(s), quantity)`. -/
abbrev ItemOp := ℤ × StockOp × List ℤ × ℤ

/-- Lookup with default 0 in an insertion-ordered `warehouse_id -> stock` dict. -/
def alGet (l : List (ℤ × ℤ)) (k : ℤ) : ℤ :=
  (l.lookup k).getD 0

/-- Model of `d[k] = v`: replace in place if present (dicts keep the key's position),
else append. -/
def alUpdate : List (ℤ × ℤ) → ℤ → ℤ → List (ℤ × ℤ)
  | [], k, v => [(k, v)]
  | (k1, v1) :: rest, k, v =>
    if k1 = k then (k, v) :: rest else (k1, v1) :: alUpdate rest k v

/-- Model of `del d[k]` after a successful membership check: drop the entry. -/
def alErase : List (ℤ × ℤ) → ℤ → List (ℤ × ℤ)
  | [], _ => []
  | (k1, v1) :: rest, k =>
    if k1 = k then rest else (k1, v1) :: alErase rest k

/-- Model of `OrderedDict.move_to_end(key)` on the key list of a request cache. -/
def moveToEnd (l : List DedupKey) (key : DedupKey) : List DedupKey :=
  l.erase key ++ [key]

/-- Model of `warehouse.InventorySystem` state.  `item_warehouse_stocks` is a dict of
dicts with observable key membership and deletions, modelled as an
`Option`-valued outer map over insertion-ordered inner association lists;
`item_transfers` and `warehouse_stock_movement` are `defaultdict(int)`s and
`item_latest_ops` is only accessed through `setdefault`/`get`-with-default,
so they are total maps.  The request caches (one `OrderedDict` used as an LRU
set per lock stripe) are key lists in insertion order. -/
structure InventorySystem where
  item_warehouse_stocks : ℤ → Option (List (ℤ × ℤ))
  item_transfers : ℤ → ℤ
  item_latest_ops : ℤ → List ItemOp
  warehouse_stock_movement : ℤ → ℤ
  ops_max_len : ℕ
  num_locks : ℕ
  max_requests_per_cache : ℕ
  request_cache : ℕ → List DedupKey

/-- Model of `InventorySystem.__init__`. -/
def InventorySystem.init (ops_max_len num_locks max_requests : ℕ) : InventorySystem :=
  { item_warehouse_stocks := fun _ => none
    item_transfers := fun _ => 0
    item_latest_ops := fun _ => []
    warehouse_stock_movement := fun _ => 0
    ops_max_len := ops_max_len
    num_locks := num_locks
    max_requests_per_cache := max_requests / num_locks
    request_cache := fun _ => [] }

variable (hashKey : DedupKey → ℕ)

/-- Model of `InventorySystem._add_item_audit_op`: append to the item's bounded audit
deque and trim from the front down to `ops_max_len` entries. -/
def InventorySystem.add_item_audit_op (s : InventorySystem) (item_id quantity timestamp : ℤ)
    (op : StockOp) (warehouse_ids : List ℤ) : InventorySystem :=
  let appended := s.item_latest_ops item_id ++ [(timestamp, op, warehouse_ids, quantity)]
  let trimmed := if s.ops_max_len < appended.length
    then appended.drop (appended.length - s.ops_max_len) else appended
  { s with item_latest_ops := (Function.update s.item_latest_ops item_id trimmed) }

/-- Model of `InventorySystem._dedup_request`: returns `(already_seen, new_state)`.  A
hit moves the key to the back of its stripe's LRU; a miss records it and
evicts the oldest entry if the stripe overflows. -/
def InventorySystem.dedup_request (s : InventorySystem) (op : StockOp) (item_id timestamp : ℤ)
    (warehouse_ids : List ℤ) : Bool × InventorySystem :=
  let key : DedupKey := (op, item_id, timestamp, warehouse_ids)
  let i := hashKey key % s.num_locks
  let cache := s.request_cache i
  if key ∈ cache then
    (true, { s with request_cache := (Function.update s.request_cache i (moveToEnd cache key)) })
  else
    let c1 := cache ++ [key]
    let c2 := if s.max_requests_per_cache < c1.length then c1.drop 1 else c1
    (false, { s with request_cache := (Function.update s.request_cache i c2) })

/-- Model of `InventorySystem._add_warehouse_stock_movement`. -/
def InventorySystem.add_warehouse_stock_movement (s : InventorySystem)
    (warehouse_id quantity : ℤ) : InventorySystem :=
  { s with warehouse_stock_movement :=
      (Function.update s.warehouse_stock_movement warehouse_id
        (s.warehouse_stock_movement warehouse_id + quantity)) }

/-- Model of `InventorySystem._add_stock` (the inner helper): `setdefault` the item's
dict, then add `quantity` to the warehouse's entry. -/
def InventorySystem.add_stock_inner (s : InventorySystem) (item_id quantity warehouse_id : ℤ) :
    InventorySystem :=
  let inner := (s.item_warehouse_stocks item_id).getD []
  { s with item_warehouse_stocks :=
      (Function.update s.item_warehouse_stocks item_id
        (some (alUpdate inner warehouse_id (alGet inner warehouse_id + quantity)))) }

/-- Model of `InventorySystem._remove_stock` (the inner helper).  `some (s1, true)` on
success, `some (s, false)` on the insufficient-stock/unknown-item early
returns, `none` when `del inner[warehouse_id]` would raise `KeyError` (stock
hit exactly 0 through the `.get(warehouse_id, 0)` default with no entry
present, possible only for `quantity = 0`). -/
def InventorySystem.remove_stock_inner (s : InventorySystem) (item_id quantity warehouse_id : ℤ) :
    Option (InventorySystem × Bool) :=
  match s.item_warehouse_stocks item_id with
  | none => some (s, false)
  | some inner =>
    let stock := alGet inner warehouse_id
    if stock < quantity then some (s, false)
    else
      let new_stock := stock - quantity
      if new_stock = 0 then
        if (inner.lookup warehouse_id).isSome then
          let inner1 := alErase inner warehouse_id
          if inner1 = [] then
            some ({ s with item_warehouse_stocks :=
              (Function.update s.item_warehouse_stocks item_id none) }, true)
          else
            some ({ s with item_warehouse_stocks :=
              (Function.update s.item_warehouse_stocks item_id (some inner1)) }, true)
        else none
      else
        some ({ s with item_warehouse_stocks :=
          (Function.update s.item_warehouse_stocks item_id
            (some (alUpdate inner warehouse_id new_stock))) }, true)

/-- Model of `warehouse.InventorySystem.add_stock`: dedup guard, then the unguarded
add, movement counter and audit entry; always returns `True`. -/
def InventorySystem.add_stock (s : InventorySystem) (item_id quantity warehouse_id timestamp : ℤ) :
    InventorySystem × Bool :=
  match s.dedup_request hashKey .ADD item_id timestamp [warehouse_id] with
  | (true, s1) => (s1, true)
  | (false, s1) =>
    let s2 := s1.add_stock_inner item_id quantity warehouse_id
    let s3 := s2.add_warehouse_stock_movement warehouse_id quantity
    let s4 := s3.add_item_audit_op item_id quantity timestamp .ADD [warehouse_id]
    (s4, true)

/-- Model of `warehouse.InventorySystem.remove_stock`. -/
def InventorySystem.remove_stock (s : InventorySystem)
    (item_id quantity warehouse_id timestamp : ℤ) : Option (InventorySystem × Bool) :=
  match s.dedup_request hashKey .DEL item_id timestamp [warehouse_id] with
  | (true, s1) => some (s1, true)
  | (false, s1) =>
    match s1.remove_stock_inner item_id quantity warehouse_id with
    | none => none
    | some (s2, false) => some (s2, false)
    | some (s2, true) =>
      let s3 := s2.add_item_audit_op item_id quantity timestamp .DEL [warehouse_id]
      let s4 := s3.add_warehouse_stock_movement warehouse_id quantity
      some (s4, true)

/-- Model of `InventorySystem._transfer_stock` (the inner helper): remove from the
source, and only then add to the destination and bump the transfer counter. -/
def InventorySystem.transfer_stock_inner (s : InventorySystem)
    (item_id from_warehouse to_warehouse quantity : ℤ) : Option (InventorySystem × Bool) :=
  match s.remove_stock_inner item_id quantity from_warehouse with
  | none => none
  | some (s1, false) => some (s1, false)
  | some (s1, true) =>
    let s2 := s1.add_stock_inner item_id quantity to_warehouse
    let s3 := { s2 with item_transfers :=
      (Function.update s2.item_transfers item_id (s2.item_transfers item_id + quantity)) }
    some (s3, true)

/-- Model of `warehouse.InventorySystem.transfer_stock`: dedup guard, reject
same-warehouse transfers, then the two-leg inner transfer followed by audit
and movement counters. -/
def InventorySystem.transfer_stock (s : InventorySystem)
    (item_id from_warehouse to_warehouse quantity timestamp : ℤ) :
    Option (InventorySystem × Bool) :=
  match s.dedup_request hashKey .TFR item_id timestamp [from_warehouse, to_warehouse] with
  | (true, s1) => some (s1, true)
  | (false, s1) =>
    if from_warehouse = to_warehouse then some (s1, false)
    else
      match s1.transfer_stock_inner item_id from_warehouse to_warehouse quantity with
      | none => none
      | some (s2, false) => some (s2, false)
      | some (s2, true) =>
        let s3 := s2.add_item_audit_op item_id quantity timestamp .TFR
          [from_warehouse, to_warehouse]
        let s4 := s3.add_warehouse_stock_movement from_warehouse quantity
        let s5 := s4.add_warehouse_stock_movement to_warehouse quantity
        some (s5, true)

/-- Model of `warehouse.InventorySystem.get_warehouse_stock`. -/
def InventorySystem.get_warehouse_stock (s : InventorySystem) (item_id warehouse_id : ℤ) : ℤ :=
  match s.item_warehouse_stocks item_id with
  | none => 0
  | some inner => alGet inner warehouse_id

/-- Model of `warehouse.InventorySystem.get_audit_log`: the last `limit` entries
(`ops[-limit:]`, for the positive limits the API is used with). -/
def InventorySystem.get_audit_log (s : InventorySystem) (item_id : ℤ) (limit : ℕ) : List ItemOp :=
  (s.item_latest_ops item_id).drop ((s.item_latest_ops item_id).length - limit)

end WH

/-! Concrete instantiations used by the closed counterexamples and by the
witnesses of the hypothesised theorems. -/

/-- A concrete stand-in for the abstract `mmh3`-hash parameter. -/
def H0 : ℤ → String → ℤ := fun _ _ => 0

/-- Concrete 1-by-1 impression sketch holding 5 in its only cell: one
`add("a", None, 5)` call on a fresh sketch. -/
def imp5 : IMP.CountMinSketch := (IMP.CountMinSketch.init 1 1).add H0 "a" none 5

/-- Concrete 1-by-1 hashtag sketch holding 5 in its only cell. -/
def ht5 : HT.CountMinSketch := (HT.CountMinSketch.init 1 1).add H0 "a" 5

/-- Result of the hashtag subtract of `ht5` from a fresh sketch (the shapes
match, so the subtract completes). -/
def htSub : HT.CountMinSketch :=
  ((HT.CountMinSketch.init 1 1).subtract ht5).getD (HT.CountMinSketch.init 1 1)

/-- A concrete stand-in for the Python `hash` on dedup keys. -/
def hashKey0 : WH.DedupKey → ℕ := fun _ => 0

/-- Fresh inventory system with the default configuration. -/
def whInit : WH.InventorySystem := WH.InventorySystem.init 1000 128 100000

/-- Scenario S4 setup: item 1 stocked with 5 units at warehouse 1. -/
def whS4 : WH.InventorySystem := (whInit.add_stock hashKey0 1 5 1 10).1

/-- S4 first transfer (qty 6 > stock 5): expected to fail atomically. -/
def whS4a : WH.InventorySystem :=
  match whS4.transfer_stock hashKey0 1 1 2 6 200 with
  | some p => p.1
  | none => whS4

/-- S4 second transfer (qty 3 ≤ stock 5): expected to succeed atomically. -/
def whS4b : WH.InventorySystem :=
  match whS4a.transfer_stock hashKey0 1 1 2 3 300 with
  | some p => p.1
  | none => whS4a

/-- Scenario S6: `add_stock(item=1, qty=10, wh=1, ts=100)` applied once... -/
def whS6a : WH.InventorySystem := (whInit.add_stock hashKey0 1 10 1 100).1

/-- The same add_stock call applied a second time with the identical idempotency tuple. -/
def whS6b : WH.InventorySystem := (whS6a.add_stock hashKey0 1 10 1 100).1

/-- Carpark with a single lot "A" of capacity 1. -/
def cpCaps : String → Option ℤ := fun lot_id => if lot_id = "A" then some 1 else none

/-- Carpark tracker for the observed-time counterexample. -/
def cp0 : CP.CarparkTracker := CP.CarparkTracker.init cpCaps 30 3600 10

/-- First carpark event: car1 enters at t=100 (accepted). -/
def cp1 : CP.CarparkTracker := cp0.record_event "A" "car1" .ENTER 100

/-- Second carpark event: car2 enters at t=200 (rejected — lot full). -/
def cp2 : CP.CarparkTracker := cp1.record_event "A" "car2" .ENTER 200

/-- Trending tracker (window 300) with "#x" recorded at t=100 and t=400:
the t=100 record sits exactly on the cutoff of a 300-second query at t=400. -/
def trBoundary : HT.TrendingTracker :=
  ((HT.TrendingTracker.init 300 1 5000).record_post "#x" 100).record_post "#x" 400

/-- The S1 call sequence of the specification (window 300, K = 1). -/
def trS1 : HT.TrendingTracker :=
  HT.TrendingTracker.applyPosts (HT.TrendingTracker.init 300 1 5000)
    [("#ai", 100), ("#ml", 110), ("#ai", 115), ("#go", 160), ("#ai", 400)]

/-- S1 without the boundary record of "#ai" at t=100. -/
def trS1drop : HT.TrendingTracker :=
  HT.TrendingTracker.applyPosts (HT.TrendingTracker.init 300 1 5000)
    [("#ml", 110), ("#ai", 115), ("#go", 160), ("#ai", 400)]

/-- A small carpark ring (window 30, bucket 10) with one event at t=10. -/
def cpRbBoundary : CP.RingBuffer := (CP.RingBuffer.init 30 10).add 10 1

/-- RollingCMS (window 30, bucket 10, 1×1 table) after a fresh add at t=50
followed by a stale add at t=10 (both eras land in ring slot 1). -/
def impStale : IMP.RollingCMS :=
  ((IMP.RollingCMS.init 30 10 1 1).add H0 "k" 50 1).add H0 "k" 10 1

/-- Orderbook ring (window 60, bucket 10) holding era 60 in slot 0. -/
def obFresh : OB.RingBuffer := ((OB.RingBuffer.init 60 10).add 60 1).1

/-- The same ring after an add whose era 0 is STRICTLY OLDER than the stored
era 60 of slot 0. -/
def obStale : OB.RingBuffer := (obFresh.add 0 1).1

/-- Event used by the delete_event witness. -/
def evW : ET.Event := ⟨"e1", "u1", "view", 0⟩

/-- Ring buffer held by the delete_event witness state. -/
def etRbW : ET.RingBuffer := ET.RingBuffer.init 10 10

/-- Event tracker state holding one event "e1" of user "u1", with
`current_time = 100` and a 10-second window, so "e1" (t=0) is expired. -/
def etW : ET.EventTracker :=
  { window_seconds := 10
    bucket_size := 10
    users := fun u => if u = "u1" then some {"e1"} else none
    events := fun e => if e = "e1" then some evW else none
    event_type_rbs := fun t => if t = "view" then some etRbW else none
    event_type_user_event_counts := fun _ _ => 1
    event_types := {"view"}
    current_time := 100 }

/-! Helper lemmas. -/

namespace ET

theorem applyBucketOps_count_nonneg (ops : List BucketOp) :
    ∀ b : AtomicBucket, 0 ≤ b.count → (∀ op ∈ ops, op.ok = true) →
    0 ≤ (applyBucketOps b ops).count := by
  induction ops with
  | nil => intro b hb _; exact hb
  | cons op rest ih =>
    intro b hb hok
    have hrest : ∀ o ∈ rest, o.ok = true := fun o ho => hok o (List.mem_cons_of_mem _ ho)
    cases op with
    | add st c =>
      have hc : 0 ≤ c := by
        have := hok (.add st c) (List.mem_cons_self _ _)
        simpa [BucketOp.ok] using this
      refine ih _ ?_ hrest
      unfold AtomicBucket.add
      split
      · exact hb
      · split
        · show 0 ≤ c
          exact hc
        · show 0 ≤ b.count + c
          omega
    | minus st c =>
      refine ih _ ?_ hrest
      unfold AtomicBucket.minus
      split
      · exact hb
      · split
        · exact le_max_right _ 0
        · exact hb

end ET

namespace IMP

theorem add_rows_table (H : ℤ → String → ℤ) (c : CountMinSketch) (item : String) (count : ℤ)
    (i j : ℕ) :
    (c.add_rows H item count).table i j
      = c.table i j + (if i < c.depth ∧ j = c.get_col_index H i item then count else 0) := by
  unfold CountMinSketch.add_rows
  by_cases h : i < c.depth ∧ j = c.get_col_index H i item <;> simp [h]

theorem minus64_table (c other : CountMinSketch)
    (h : c.width = other.width ∧ c.depth = other.depth) (i j : ℕ) :
    (c.minus64 other).table i j = (c.table i j - other.table i j) % (2 ^ 64) := by
  unfold CountMinSketch.minus64
  rw [if_pos h]

end IMP

namespace HT

theorem cleanup_old_data_current_time (s : TrendingTracker) (cutoff : ℤ) :
    (s.cleanup_old_data cutoff).current_time = s.current_time := by
  unfold TrendingTracker.cleanup_old_data
  split <;> rfl

theorem record_post_current_time (s : TrendingTracker) (tag : String) (ts : ℤ) :
    (s.record_post tag ts).current_time = max s.current_time ts := by
  unfold TrendingTracker.record_post
  dsimp only
  split
  · rw [cleanup_old_data_current_time]
  · rfl

theorem applyPosts_current_time (posts : List (String × ℤ)) :
    ∀ s : TrendingTracker,
    (TrendingTracker.applyPosts s posts).current_time
      = posts.foldl (fun m p => max m p.2) s.current_time := by
  induction posts with
  | nil => intro s; rfl
  | cons p rest ih =>
    intro s
    show (TrendingTracker.applyPosts (s.record_post p.1 p.2) rest).current_time = _
    rw [ih, record_post_current_time]
    rfl

end HT

namespace CP

theorem record_occupancy_current_time (s : CarparkTracker) (lot car : String)
    (et : CarparkEventType) :
    (s.record_occupancy lot car et).2.current_time = s.current_time := by
  unfold CarparkTracker.record_occupancy
  cases et <;> dsimp only <;> split <;> rfl

theorem record_occupancy_snapshot_current_time (s : CarparkTracker) (lot : String) (ts : ℤ) :
    (s.record_occupancy_snapshot lot ts).current_time = s.current_time := by
  unfold CarparkTracker.record_occupancy_snapshot
  split <;> rfl

theorem record_event_current_time (s : CarparkTracker) (lot car : String)
    (et : CarparkEventType) (ts : ℤ) :
    (s.record_event lot car et ts).current_time = s.current_time ∨
    (s.record_event lot car et ts).current_time = max s.current_time ts := by
  unfold CarparkTracker.record_event
  split
  · exact Or.inl rfl
  · split
    · exact Or.inl rfl
    · rcases hro : s.record_occupancy lot car et with ⟨b, s1⟩
      have hs1 : s1.current_time = s.current_time := by
        have := record_occupancy_current_time s lot car et
        rw [hro] at this
        exact this
      cases b with
      | false => exact Or.inl hs1
      | true =>
        refine Or.inr ?_
        have hs2 : (s1.record_occupancy_snapshot lot ts).current_time = s.current_time := by
          rw [record_occupancy_snapshot_current_time, hs1]
        cases et <;> simp only <;> rw [hs2]

end CP


/-! Claim theorems. -/

/-- Claim C2, counterexample: the orderbook `AtomicBucket.subtract_if_same_time`
does not saturate — subtracting 5 from a fresh bucket (value 0, era 0) at era 0
stores −5, so "every AtomicBucket's stored value is ≥ 0 after every sequence of
add and subtract operations" is false as stated. -/
theorem C2_counterexample :
    (OB.AtomicBucket.init.subtract_if_same_time 0 5).quantity = -5 ∧
    ¬ (0 ≤ (OB.AtomicBucket.init.subtract_if_same_time 0 5).quantity) := by
  constructor <;> decide

/-- Claim C2, amended: the event_tracker AtomicBucket value stays ≥ 0 after
every sequence of add (nonnegative count) and minus calls — its subtraction
saturates at zero — and the hashtag_tracker CountMinSketch (signed table)
saturates too: every cell of a completed subtract is ≥ 0.  The
impression_tracker CountMinSketch table, however, is np.uint64, so its
subtraction wraps modulo 2 ^ 64 rather than saturating: on in-range tables the
cells stay inside [0, 2 ^ 64), and a cell strictly smaller than the subtrahend
becomes a − b + 2 ^ 64 > 0 instead of clamping to 0 — concretely, subtracting
5 from an empty cell leaves 2 ^ 64 − 5.  The orderbook AtomicBucket's stored
value may go negative; only its reads (get_quantity_if_valid and
RingBuffer.total) clamp at zero. -/
theorem C2_amended :
    (∀ ops : List ET.BucketOp, (∀ op ∈ ops, op.ok = true) →
      0 ≤ (ET.applyBucketOps ET.AtomicBucket.init ops).count) ∧
    (∀ c other c' : HT.CountMinSketch, c.subtract other = some c' →
      ∀ i j, 0 ≤ c'.table i j) ∧
    (∀ c other : IMP.CountMinSketch, c.width = other.width → c.depth = other.depth →
      ∀ i j, 0 ≤ c.table i j → c.table i j < 2 ^ 64 →
        0 ≤ other.table i j → other.table i j < 2 ^ 64 →
        (0 ≤ (c.minus64 other).table i j ∧ (c.minus64 other).table i j < 2 ^ 64) ∧
        (c.table i j < other.table i j →
          (c.minus64 other).table i j = c.table i j - other.table i j + 2 ^ 64 ∧
          0 < (c.minus64 other).table i j)) ∧
    ((IMP.CountMinSketch.init 1 1).minus64 imp5).table 0 0 = 2 ^ 64 - 5 ∧
    (∀ (b : OB.AtomicBucket) (cutoff : ℤ), 0 ≤ b.get_quantity_if_valid cutoff) ∧
    (∀ rb : OB.RingBuffer, 0 ≤ rb.total) := by
  refine ⟨?_, ?_, ?_, ?_, ?_, ?_⟩
  · intro ops hok
    exact ET.applyBucketOps_count_nonneg ops ET.AtomicBucket.init (by decide) hok
  · intro c other c' hsub i j
    unfold HT.CountMinSketch.subtract at hsub
    by_cases hsh : c.width = other.width ∧ c.depth = other.depth
    · rw [if_pos hsh] at hsub
      injection hsub with h
      subst h
      exact le_max_right _ 0
    · rw [if_neg hsh] at hsub
      exact Option.noConfusion hsub
  · intro c other hw hd i j hc0 hc1 ho0 ho1
    rw [IMP.minus64_table c other ⟨hw, hd⟩ i j]
    have e : ((2 : ℤ) ^ 64) = 18446744073709551616 := by norm_num
    rw [e] at hc1 ho1 ⊢
    refine ⟨⟨?_, ?_⟩, fun hlt => ⟨?_, ?_⟩⟩ <;> omega
  · decide
  · intro b cutoff
    unfold OB.AtomicBucket.get_quantity_if_valid
    split
    · exact le_max_left 0 _
    · exact le_refl 0
  · intro rb
    unfold OB.RingBuffer.total
    refine Finset.sum_nonneg ?_
    intro i _
    split <;> omega

/-- Claim C2, witness: concrete instances of every hypothesised conjunct — an
add-then-oversubtract on an event_tracker bucket ends at 0 (not −2); the
hashtag subtract of the 5-cell sketch `ht5` from a fresh sketch completes and
its cell clamps to a value ≥ 0; the uint64 wrap facts hold for the fresh
1-by-1 impression sketch against the 5-cell `imp5` (the empty cell is strictly
smaller than 5, so it wraps to 2 ^ 64 − 5 > 0 instead of clamping); and a
clamped orderbook read of a negative cell returns ≥ 0. -/
theorem C2_witness :
    0 ≤ (ET.applyBucketOps ET.AtomicBucket.init
          [ET.BucketOp.add 10 5, ET.BucketOp.minus 10 7]).count ∧
    0 ≤ htSub.table 0 0 ∧
    (0 ≤ ((IMP.CountMinSketch.init 1 1).minus64 imp5).table 0 0 ∧
      ((IMP.CountMinSketch.init 1 1).minus64 imp5).table 0 0 < 2 ^ 64) ∧
    (((IMP.CountMinSketch.init 1 1).minus64 imp5).table 0 0
        = (IMP.CountMinSketch.init 1 1).table 0 0 - imp5.table 0 0 + 2 ^ 64 ∧
      0 < ((IMP.CountMinSketch.init 1 1).minus64 imp5).table 0 0) ∧
    0 ≤ OB.AtomicBucket.get_quantity_if_valid ⟨0, -5⟩ 0 := by
  refine ⟨C2_amended.1 _ (by decide),
          C2_amended.2.1 (HT.CountMinSketch.init 1 1) ht5 htSub rfl 0 0,
          (C2_amended.2.2.1 (IMP.CountMinSketch.init 1 1) imp5 (by decide) (by decide) 0 0
            (by decide) (by decide) (by decide) (by decide)).1,
          (C2_amended.2.2.1 (IMP.CountMinSketch.init 1 1) imp5 (by decide) (by decide) 0 0
            (by decide) (by decide) (by decide) (by decide)).2 (by decide),
          C2_amended.2.2.2.2.1 ⟨0, -5⟩ 0⟩

/-- Claim C5, counterexample: in the orderbook ring, an add whose era (0) is
STRICTLY OLDER than the era stored in the target bucket (60) does not leave
the bucket unchanged — it overwrites it with `(era, delta)`. -/
theorem C5_counterexample :
    OB.RingBuffer.get_bucket_start_time obFresh 0 < (obFresh.buckets 0).start_time ∧
    (obFresh.add 0 1).1.buckets 0 ≠ obFresh.buckets 0 ∧
    (obFresh.add 0 1).1.buckets 0 = ⟨0, 1⟩ := by
  refine ⟨by decide, by decide, by decide⟩

/-- Claim C5, amended: the event_tracker and carpark AtomicBuckets behave as
claimed (older era ignored, newer era replaces with `(era, delta)`, equal era
accumulates); the orderbook ring instead accumulates on an equal era and
OVERWRITES the bucket with `(era, delta)` on any different era, including
strictly older ones. -/
theorem C5_amended :
    (∀ (b : ET.AtomicBucket) (st c : ℤ),
      (st < b.start_time → b.add st c = b) ∧
      (b.start_time < st → b.add st c = ⟨c, st⟩) ∧
      (st = b.start_time → b.add st c = ⟨b.count + c, b.start_time⟩)) ∧
    (∀ (b : CP.AtomicBucket) (st q : ℤ),
      (st < b.start_time → b.add st q = b) ∧
      (b.start_time < st → b.add st q = ⟨st, q⟩) ∧
      (st = b.start_time → b.add st q = ⟨b.start_time, b.quantity + q⟩)) ∧
    (∀ (rb : OB.RingBuffer) (ts c : ℤ),
      ((rb.buckets (rb.get_bucket_index ts)).start_time = rb.get_bucket_start_time ts →
        (rb.add ts c).1.buckets (rb.get_bucket_index ts)
          = ⟨(rb.buckets (rb.get_bucket_index ts)).start_time,
             (rb.buckets (rb.get_bucket_index ts)).quantity + c⟩) ∧
      ((rb.buckets (rb.get_bucket_index ts)).start_time ≠ rb.get_bucket_start_time ts →
        (rb.add ts c).1.buckets (rb.get_bucket_index ts)
          = ⟨rb.get_bucket_start_time ts, c⟩) ∧
      (∀ j, j ≠ rb.get_bucket_index ts → (rb.add ts c).1.buckets j = rb.buckets j)) := by
  refine ⟨?_, ?_, ?_⟩
  · intro b st c
    refine ⟨fun h => ?_, fun h => ?_, fun h => ?_⟩
    · unfold ET.AtomicBucket.add
      rw [if_pos h]
    · unfold ET.AtomicBucket.add
      rw [if_neg (by omega), if_pos h]
    · unfold ET.AtomicBucket.add
      rw [if_neg (by omega), if_neg (by omega)]
  · intro b st q
    refine ⟨fun h => ?_, fun h => ?_, fun h => ?_⟩
    · unfold CP.AtomicBucket.add
      rw [if_neg (by omega), if_neg (by omega)]
    · unfold CP.AtomicBucket.add
      rw [if_neg (by omega), if_pos h]
    · unfold CP.AtomicBucket.add
      rw [if_pos h]
  · intro rb ts c
    refine ⟨fun h => ?_, fun h => ?_, fun j hj => ?_⟩
    · show (Function.update rb.buckets (rb.get_bucket_index ts) _) (rb.get_bucket_index ts) = _
      rw [Function.update_same]
      unfold OB.AtomicBucket.add_if_same_time
      rw [if_pos h]
    · show (Function.update rb.buckets (rb.get_bucket_index ts) _) (rb.get_bucket_index ts) = _
      rw [Function.update_same]
      unfold OB.AtomicBucket.add_if_same_time
      rw [if_neg h]
      rfl
    · show (Function.update rb.buckets (rb.get_bucket_index ts) _) j = _
      rw [Function.update_noteq hj]


/-- Claim C5, witness: a stale add leaves an event_tracker bucket `(7, 50)`
unchanged, a newer add replaces a carpark bucket, and the orderbook ring
really does overwrite slot 0 (stored era 60) on a stale era-0 add. -/
theorem C5_witness :
    ((40:ℤ) < (50:ℤ) ∧ ET.AtomicBucket.add ⟨7, 50⟩ 40 3 = ⟨7, 50⟩) ∧
    ((50:ℤ) < (60:ℤ) ∧ CP.AtomicBucket.add ⟨50, 7⟩ 60 3 = ⟨60, 3⟩) ∧
    ((obFresh.buckets (obFresh.get_bucket_index 0)).start_time
        ≠ OB.RingBuffer.get_bucket_start_time obFresh 0 ∧
      (obFresh.add 0 1).1.buckets (obFresh.get_bucket_index 0)
        = ⟨OB.RingBuffer.get_bucket_start_time obFresh 0, 1⟩) :=
  ⟨⟨by decide, (C5_amended.1 ⟨7, 50⟩ 40 3).1 (by decide)⟩,
   ⟨by decide, (C5_amended.2.1 ⟨50, 7⟩ 60 3).2.1 (by decide)⟩,
   ⟨by decide, (C5_amended.2.2 obFresh 0 1).2.1 (by decide)⟩⟩

/-- Claim C7, counterexample: with window 300, "#x" recorded at t=100 and
t=400, the windowed count at cutoff 400−300=100 is 1 — the record lying
exactly on the cutoff is NOT counted (`bisect_right` excludes `ts == cutoff`),
refuting "inclusion is by ts ≥ cutoff". -/
theorem C7_counterexample :
    trBoundary.hashtag_timestamps.lookup "#x" = some [100, 400] ∧
    trBoundary.count_timestamps_in_window "#x" (400 - 300) = 1 ∧
    trBoundary.count_timestamps_in_window "#x" (400 - 300) ≠ 2 := by
  refine ⟨by decide, by decide, by decide⟩

/-- Claim C7, amended: the hashtag tracker's windowed count includes only
timestamps STRICTLY after the cutoff: after the S1 sequence the count of
"#ai" over the last 300 seconds at observed time 400 is 2 (≥ 2 still holds,
via the records at 115 and 400), and dropping the boundary record at 100
leaves the count unchanged; `count("#ml") = 1`.  The carpark ring's `total`,
by contrast, does include a bucket sitting exactly on the cutoff era. -/
theorem C7_amended :
    trS1.count_timestamps_in_window "#ai" (400 - 300) = 2 ∧
    2 ≤ trS1.count_timestamps_in_window "#ai" (400 - 300) ∧
    trS1.count_timestamps_in_window "#ml" (400 - 300) = 1 ∧
    trS1drop.count_timestamps_in_window "#ai" (400 - 300) = 2 ∧
    (cpRbBoundary.buckets 1).start_time = CP.RingBuffer.get_bucket_start_time cpRbBoundary 10 ∧
    cpRbBoundary.total 10 = 1 := by
  refine ⟨by decide, by decide, by decide, by decide, by decide, by decide⟩

/-- Claim C8, counterexample: in the carpark tracker (lot "A", capacity 1),
car1 enters at t=100 (accepted) and car2 at t=200 (rejected: lot full); the
observed-time register stays at 100, not the maximum 200 of all timestamps
passed to record_event. -/
theorem C8_counterexample :
    cp2.current_time = 100 ∧ cp2.current_time ≠ max (max 0 100) 200 := by
  exact ⟨by decide, by decide⟩

/-- Claim C8, amended: `current_time` is non-decreasing in both trackers; the
TrendingTracker ingests every record, so after any sequence it equals the
running maximum of all recorded timestamps (floored at the initial 0); a
carpark record_event either leaves it unchanged (rejected event) or raises it
to `max(current_time, ts)` (accepted event). -/
theorem C8_amended :
    (∀ (w : ℤ) (K n : ℕ) (posts : List (String × ℤ)),
      (HT.TrendingTracker.applyPosts (HT.TrendingTracker.init w K n) posts).current_time
        = posts.foldl (fun m p => max m p.2) 0) ∧
    (∀ (s : HT.TrendingTracker) (tag : String) (ts : ℤ),
      s.current_time ≤ (s.record_post tag ts).current_time) ∧
    (∀ (s : CP.CarparkTracker) (lot car : String) (et : CP.CarparkEventType) (ts : ℤ),
      s.current_time ≤ (s.record_event lot car et ts).current_time) ∧
    (∀ (s : CP.CarparkTracker) (lot car : String) (et : CP.CarparkEventType) (ts : ℤ),
      (s.record_event lot car et ts).current_time = s.current_time ∨
      (s.record_event lot car et ts).current_time = max s.current_time ts) := by
  refine ⟨?_, ?_, ?_, ?_⟩
  · intro w K n posts
    rw [HT.applyPosts_current_time]
    rfl
  · intro s tag ts
    rw [HT.record_post_current_time]
    exact le_max_left _ _
  · intro s lot car et ts
    rcases CP.record_event_current_time s lot car et ts with h | h
    · rw [h]
    · rw [h]
      exact le_max_left _ _
  · exact CP.record_event_current_time

/-- Claim C10: `delete_event` on an existing event strictly older than
`current_time − window_seconds` returns False yet removes the event from the
store and the user's set and decrements (clamped at 0) the per-type per-user
count, while leaving every ring buffer untouched; a second call returns False
because the event is gone. -/
theorem C10_theorem :
    ∀ (s : ET.EventTracker) (eid : String) (ev : ET.Event)
      (rb : ET.RingBuffer) (uset : Finset String),
    s.events eid = some ev →
    s.event_type_rbs ev.event_type = some rb →
    s.users ev.user_id = some uset →
    ev.timestamp < s.current_time - s.window_seconds →
    ∃ s1, s.delete_event eid = some (s1, false) ∧
      s1.events eid = none ∧
      s1.users ev.user_id = some (uset.erase eid) ∧
      s1.event_type_user_event_counts ev.event_type ev.user_id
        = max 0 (s.event_type_user_event_counts ev.event_type ev.user_id - 1) ∧
      s1.event_type_rbs = s.event_type_rbs ∧
      s1.current_time = s.current_time ∧
      s1.delete_event eid = some (s1, false) := by
  intro s eid ev rb uset hev hrb huser hstale
  unfold ET.EventTracker.delete_event
  simp only [hev, hrb, huser]
  rw [if_pos hstale]
  refine ⟨_, rfl, ?_, ?_, ?_, rfl, rfl, ?_⟩
  · exact Function.update_same _ _ _
  · exact Function.update_same _ _ _
  · dsimp only
    rw [if_pos ⟨rfl, rfl⟩]
  · dsimp only
    rw [Function.update_same]

/-- Claim C10, witness: the concrete tracker `etW` (one event "e1" at t=0,
window 10, observed time 100) — deleting "e1" returns False while mutating the
metadata exactly as described. -/
theorem C10_witness :
    (etW.events "e1" = some evW ∧
     etW.event_type_rbs evW.event_type = some etRbW ∧
     etW.users evW.user_id = some {"e1"} ∧
     evW.timestamp < etW.current_time - etW.window_seconds) ∧
    (∃ s1, etW.delete_event "e1" = some (s1, false) ∧
      s1.events "e1" = none ∧
      s1.users evW.user_id = some (Finset.erase {"e1"} "e1") ∧
      s1.event_type_user_event_counts evW.event_type evW.user_id
        = max 0 (etW.event_type_user_event_counts evW.event_type evW.user_id - 1) ∧
      s1.event_type_rbs = etW.event_type_rbs ∧
      s1.current_time = etW.current_time ∧
      s1.delete_event "e1" = some (s1, false)) :=
  ⟨⟨rfl, rfl, rfl, by decide⟩,
   C10_theorem etW "e1" evW etRbW {"e1"} rfl rfl rfl (by decide)⟩

/-- Claim C9, counterexample: the orderbook RingBuffer is built with
`num_buckets = window_seconds // bucket_size` — for the default 600/10 shape
that is 60, not the claimed 600 // 10 + 1 = 61. -/
theorem C9_counterexample :
    (OB.RingBuffer.init 600 10).num_buckets = 60 ∧
    (OB.RingBuffer.init 600 10).num_buckets ≠ 600 / 10 + 1 := by
  exact ⟨rfl, by decide⟩

/-- Claim C9, amended: the event_tracker and carpark RingBuffers (and the
impression RollingCMS ring) are constructed with
`num_buckets = window_seconds // bucket_size + 1`; the orderbook RingBuffer
uses `window_seconds // bucket_size` with no extra slot. -/
theorem C9_amended :
    ∀ w b : ℕ, 0 < w → 0 < b →
      (ET.RingBuffer.init w b).num_buckets = w / b + 1 ∧
      (CP.RingBuffer.init w b).num_buckets = w / b + 1 ∧
      (∀ width depth : ℕ, (IMP.RollingCMS.init w b width depth).num_buckets = w / b + 1) ∧
      (OB.RingBuffer.init w b).num_buckets = w / b := by
  intro w b _ _
  exact ⟨rfl, rfl, fun _ _ => rfl, rfl⟩

/-- Claim C9, witness: the shapes at the concrete configuration 600/10. -/
theorem C9_witness :
    (0 < 600 ∧ 0 < 10) ∧
    (ET.RingBuffer.init 600 10).num_buckets = 600 / 10 + 1 ∧
    (CP.RingBuffer.init 600 10).num_buckets = 600 / 10 + 1 ∧
    (∀ width depth : ℕ, (IMP.RollingCMS.init 600 10 width depth).num_buckets = 600 / 10 + 1) ∧
    (OB.RingBuffer.init 600 10).num_buckets = 600 / 10 :=
  ⟨⟨by decide, by decide⟩, C9_amended 600 10 (by decide) (by decide)⟩

namespace HT

theorem applyAdds_width (H : ℤ → String → ℤ) (L : List (String × ℤ)) :
    ∀ c : CountMinSketch, (CountMinSketch.applyAdds H c L).width = c.width := by
  induction L with
  | nil => intro c; rfl
  | cons p rest ih =>
    intro c
    show (CountMinSketch.applyAdds H (c.add H p.1 p.2) rest).width = c.width
    rw [ih]
    rfl

theorem applyAdds_depth (H : ℤ → String → ℤ) (L : List (String × ℤ)) :
    ∀ c : CountMinSketch, (CountMinSketch.applyAdds H c L).depth = c.depth := by
  induction L with
  | nil => intro c; rfl
  | cons p rest ih =>
    intro c
    show (CountMinSketch.applyAdds H (c.add H p.1 p.2) rest).depth = c.depth
    rw [ih]
    rfl

theorem applyAdds_col_index (H : ℤ → String → ℤ) (L : List (String × ℤ))
    (c : CountMinSketch) (i : ℕ) (k : String) :
    (CountMinSketch.applyAdds H c L).col_index H i k = c.col_index H i k := by
  unfold CountMinSketch.col_index
  rw [applyAdds_width]

theorem le_foldl_min (a : ℤ) : ∀ (xs : List ℤ) (x : ℤ), a ≤ x → (∀ y ∈ xs, a ≤ y) →
    a ≤ xs.foldl min x := by
  intro xs
  induction xs with
  | nil => intro x hx _; exact hx
  | cons y ys ih =>
    intro x hx hys
    exact ih (min x y) (le_min hx (hys y (List.mem_cons_self _ _)))
      (fun z hz => hys z (List.mem_cons_of_mem _ hz))

theorem le_listMin (l : List ℤ) (a : ℤ) (hne : l ≠ []) (h : ∀ x ∈ l, a ≤ x) :
    a ≤ listMin l := by
  cases l with
  | nil => exact absurd rfl hne
  | cons x xs =>
    exact le_foldl_min a xs x (h x (List.mem_cons_self _ _))
      (fun y hy => h y (List.mem_cons_of_mem _ hy))

theorem trueCount_nil (k : String) : trueCount [] k = 0 := rfl

theorem trueCount_cons (p : String × ℤ) (L : List (String × ℤ)) (k : String) :
    trueCount (p :: L) k = (if p.1 = k then p.2 else 0) + trueCount L k := by
  unfold trueCount
  by_cases h : p.1 = k <;> simp [List.filter_cons, h]

theorem table_ge_trueCount (H : ℤ → String → ℤ) (k : String) :
    ∀ (L : List (String × ℤ)) (c : CountMinSketch) (i : ℕ), i < c.depth →
    (∀ p ∈ L, 0 < p.2) →
    c.table i (c.col_index H i k) + trueCount L k
      ≤ (CountMinSketch.applyAdds H c L).table i (c.col_index H i k) := by
  intro L
  induction L with
  | nil =>
    intro c i _ _
    rw [trueCount_nil, add_zero]
    exact le_of_eq rfl
  | cons p rest ih =>
    intro c i hi hpos
    have hrest : ∀ q ∈ rest, 0 < q.2 := fun q hq => hpos q (List.mem_cons_of_mem _ hq)
    have hstep : c.table i (c.col_index H i k) + (if p.1 = k then p.2 else 0)
        ≤ (c.add H p.1 p.2).table i (c.col_index H i k) := by
      show c.table i (c.col_index H i k) + _ ≤
        (if i < c.depth ∧ c.col_index H i k = c.col_index H i p.1
          then c.table i (c.col_index H i k) + p.2 else c.table i (c.col_index H i k))
      by_cases hpk : p.1 = k
      · subst hpk
        have hcond : i < c.depth ∧ c.col_index H i p.1 = c.col_index H i p.1 := ⟨hi, rfl⟩
        rw [if_pos hcond, if_pos rfl]
      · rw [if_neg hpk, add_zero]
        have hp2 : 0 < p.2 := hpos p (List.mem_cons_self _ _)
        split <;> omega
    have hrec : (c.add H p.1 p.2).table i (c.col_index H i k) + trueCount rest k
        ≤ (CountMinSketch.applyAdds H (c.add H p.1 p.2) rest).table i (c.col_index H i k) :=
      ih (c.add H p.1 p.2) i hi hrest
    show c.table i (c.col_index H i k) + trueCount (p :: rest) k
      ≤ (CountMinSketch.applyAdds H (c.add H p.1 p.2) rest).table i (c.col_index H i k)
    rw [trueCount_cons]
    omega

end HT

/-- Claim C4: for every CountMinSketch (any shape with at least one row, any
hash function) and every sequence of `add(item, count)` calls with positive
counts and no subtraction, `estimate(k)` is at least the true count of `k`
(the sum of the counts added for `k`). -/
theorem C4_theorem :
    ∀ (H : ℤ → String → ℤ) (width depth : ℕ) (L : List (String × ℤ)) (k : String),
    0 < depth → (∀ p ∈ L, 0 < p.2) →
    HT.trueCount L k
      ≤ (HT.CountMinSketch.applyAdds H (HT.CountMinSketch.init width depth) L).estimate H k := by
  intro H width depth L k hdepth hpos
  unfold HT.CountMinSketch.estimate
  refine HT.le_listMin _ _ ?_ ?_
  · have hd : (HT.CountMinSketch.applyAdds H (HT.CountMinSketch.init width depth) L).depth
        = depth := HT.applyAdds_depth H L _
    rw [hd]
    simp only [ne_eq, List.map_eq_nil_iff, List.range_eq_nil]
    omega
  · intro x hx
    rcases List.mem_map.mp hx with ⟨i, hi, rfl⟩
    rw [List.mem_range, HT.applyAdds_depth] at hi
    rw [HT.applyAdds_col_index]
    have := HT.table_ge_trueCount H k L (HT.CountMinSketch.init width depth) i hi hpos
    calc HT.trueCount L k
        = (HT.CountMinSketch.init width depth).table i
            ((HT.CountMinSketch.init width depth).col_index H i k) + HT.trueCount L k := by
          show HT.trueCount L k = 0 + HT.trueCount L k
          omega
      _ ≤ _ := this

/-- Claim C4, witness: a 1×1 sketch after `add("a", 2)` estimates "a" at
least at its true count 2. -/
theorem C4_witness :
    (0 < 1 ∧ (∀ p ∈ [("a", (2:ℤ))], 0 < p.2)) ∧
    HT.trueCount [("a", (2:ℤ))] "a"
      ≤ (HT.CountMinSketch.applyAdds H0 (HT.CountMinSketch.init 1 1)
          [("a", (2:ℤ))]).estimate H0 "a" :=
  ⟨⟨by decide, by decide⟩, C4_theorem H0 1 1 [("a", 2)] "a" (by decide) (by decide)⟩

namespace IMP

theorem get_bucket_index_lt (r : RollingCMS) (st : ℤ) (hn : 0 < r.num_buckets) :
    r.get_bucket_index st < r.num_buckets := by
  unfold RollingCMS.get_bucket_index
  have h0 : (0:ℤ) < (r.num_buckets : ℤ) := by exact_mod_cast hn
  have h1 : 0 ≤ Int.emod (st.ediv r.bucket_size) r.num_buckets :=
    Int.emod_nonneg _ (ne_of_gt h0)
  have h2 : Int.emod (st.ediv r.bucket_size) r.num_buckets < r.num_buckets :=
    Int.emod_lt_of_pos _ h0
  omega

theorem sum_update_range (n : ℕ) (f : ℕ → ℤ) (i0 : ℕ) (v : ℤ) (h : i0 ∈ Finset.range n) :
    ∑ x in Finset.range n, Function.update f i0 v x
      = (∑ x in Finset.range n, f x) - f i0 + v := by
  rw [Finset.sum_update_of_mem h, Finset.sum_eq_sum_diff_singleton_add h f]
  ring

theorem init_inv (w bs width depth : ℕ) : (RollingCMS.init w bs width depth).Inv := by
  refine ⟨fun b => ⟨rfl, rfl⟩, ⟨rfl, rfl⟩, fun b i j => le_refl 0, fun b _ i j => rfl, ?_⟩
  intro i j
  show (0:ℤ) = ∑ _x in Finset.range (w / bs + 1), (0:ℤ)
  rw [Finset.sum_const, smul_zero]

/-- The common shape of one `RollingCMS.add` step: the target bucket becomes
`add_rows base` and `merged` becomes `add_rows merged1`; whenever `merged1`
accounts for the bucket's replacement (`merged1 = Σ − old bucket + base`
cell-wise), the whole invariant is preserved. -/
theorem add_rows_inv_core (H : ℤ → String → ℤ) (r : RollingCMS) (item : String) (count : ℤ)
    (bi : ℕ) (hbi : bi < r.num_buckets) (hcount : 0 ≤ count)
    (base merged1 : CountMinSketch)
    (hbw : base.width = r.width) (hbd : base.depth = r.depth) (hbst : base.start_time ≠ 0)
    (hmw1 : merged1.width = r.width) (hmd1 : merged1.depth = r.depth)
    (hbase_nonneg : ∀ i j, 0 ≤ base.table i j)
    (hshape : ∀ x, (r.buckets x).width = r.width ∧ (r.buckets x).depth = r.depth)
    (hnonneg : ∀ x i j, 0 ≤ (r.buckets x).table i j)
    (hsent : ∀ x, (r.buckets x).start_time = 0 → ∀ i j, (r.buckets x).table i j = 0)
    (hmerged1 : ∀ i j, merged1.table i j
      = (∑ x in Finset.range r.num_buckets, (r.buckets x).table i j)
        - (r.buckets bi).table i j + base.table i j) :
    RollingCMS.Inv { r with
      buckets := (Function.update r.buckets bi (CountMinSketch.add_rows H base item count))
      merged := CountMinSketch.add_rows H merged1 item count } := by
  refine ⟨?_, ⟨?_, ?_⟩, ?_, ?_, ?_⟩
  · intro x
    show (Function.update r.buckets bi (CountMinSketch.add_rows H base item count) x).width
        = r.width ∧
      (Function.update r.buckets bi (CountMinSketch.add_rows H base item count) x).depth
        = r.depth
    by_cases hx : x = bi
    · subst hx
      rw [Function.update_same]
      exact ⟨hbw, hbd⟩
    · rw [Function.update_noteq hx]
      exact hshape x
  · exact hmw1
  · exact hmd1
  · intro x i j
    show 0 ≤ (Function.update r.buckets bi (CountMinSketch.add_rows H base item count) x).table i j
    by_cases hx : x = bi
    · subst hx
      rw [Function.update_same, add_rows_table]
      have := hbase_nonneg i j
      split <;> omega
    · rw [Function.update_noteq hx]
      exact hnonneg x i j
  · intro x hx0 i j
    have hx1 : (Function.update r.buckets bi (CountMinSketch.add_rows H base item count) x).start_time
        = 0 := hx0
    show (Function.update r.buckets bi (CountMinSketch.add_rows H base item count) x).table i j = 0
    by_cases hx : x = bi
    · subst hx
      rw [Function.update_same] at hx1
      exact absurd hx1 hbst
    · rw [Function.update_noteq hx] at hx1 ⊢
      exact hsent x hx1 i j
  · intro i j
    show (CountMinSketch.add_rows H merged1 item count).table i j
      = ∑ x in Finset.range r.num_buckets,
          (Function.update r.buckets bi (CountMinSketch.add_rows H base item count) x).table i j
    rw [add_rows_table]
    have hpt : ∀ x,
        (Function.update r.buckets bi (CountMinSketch.add_rows H base item count) x).table i j
          = Function.update (fun y => (r.buckets y).table i j) bi
              ((CountMinSketch.add_rows H base item count).table i j) x := by
      intro x
      by_cases hx : x = bi
      · subst hx
        rw [Function.update_same, Function.update_same]
      · rw [Function.update_noteq hx, Function.update_noteq hx]
    rw [Finset.sum_congr rfl (fun x _ => hpt x),
      sum_update_range r.num_buckets _ bi _ (Finset.mem_range.mpr hbi), add_rows_table]
    have hδ : (if i < merged1.depth ∧ j = CountMinSketch.get_col_index H merged1 i item
          then count else 0)
        = (if i < base.depth ∧ j = CountMinSketch.get_col_index H base i item
          then count else 0) := by
      have hd2 : merged1.depth = base.depth := by rw [hmd1, hbd]
      have hw2 : CountMinSketch.get_col_index H merged1 i item
          = CountMinSketch.get_col_index H base i item := by
        unfold CountMinSketch.get_col_index
        rw [hmw1, hbw]
      rw [hd2, hw2]
    rw [hmerged1 i j, hδ]
    ring

/-- Invariant preservation of one non-stale, positive-era, nonnegative-count
`RollingCMS.add`. -/
theorem add_inv (H : ℤ → String → ℤ) (r : RollingCMS) (item : String) (ts count : ℤ)
    (hn : 0 < r.num_buckets) (hInv : r.Inv)
    (hcount : 0 ≤ count) (hstpos : 0 < r.get_start_time ts)
    (hstle : (r.buckets (r.get_bucket_index (r.get_start_time ts))).start_time
      ≤ r.get_start_time ts) :
    (r.add H item ts count).Inv := by
  obtain ⟨hshape, ⟨hmw, hmd⟩, hnonneg, hsent, hsum⟩ := hInv
  have hsum2 : ∀ i j, r.merged.table i j
      = ∑ x in Finset.range r.num_buckets, (r.buckets x).table i j := hsum
  set st := r.get_start_time ts with hst_def
  set bi := r.get_bucket_index st with hbi_def
  set b := r.buckets bi with hb_def
  have hbilt : bi < r.num_buckets := get_bucket_index_lt r st hn
  have hne0 : st ≠ 0 := ne_of_gt hstpos
  have hnone : ∀ c : CountMinSketch, c.add H item none count
      = CountMinSketch.add_rows H c item count := fun c => rfl
  have hadd : r.add H item ts count
      = { r with
          buckets := (Function.update r.buckets bi (b.add H item (some st) count))
          merged := (if b.start_time ≠ 0 ∧ b.start_time < st
              then r.merged.minus b else r.merged).add H item none count } := rfl
  rcases eq_or_lt_of_le hstle with heq | hlt
  · -- same era: pure addition to both the bucket and merged
    have h1 : ¬(st ≠ 0 ∧ st < b.start_time) := by
      rintro ⟨-, h2⟩
      rw [heq] at h2
      exact lt_irrefl st h2
    have h2 : ¬(st ≠ 0 ∧ b.start_time < st) := by
      rintro ⟨-, h3⟩
      rw [heq] at h3
      exact lt_irrefl st h3
    have hb1 : b.add H item (some st) count = CountMinSketch.add_rows H b item count := by
      show (if st ≠ 0 ∧ st < b.start_time then b
        else if st ≠ 0 ∧ b.start_time < st then
          CountMinSketch.add_rows H { b with table := fun _ _ => 0, start_time := st } item count
        else CountMinSketch.add_rows H b item count) = _
      rw [if_neg h1, if_neg h2]
    have hmg : (if b.start_time ≠ 0 ∧ b.start_time < st then r.merged.minus b else r.merged)
        = r.merged := by
      rw [if_neg]
      rintro ⟨-, h3⟩
      rw [heq] at h3
      exact lt_irrefl st h3
    rw [hadd, hb1, hmg, hnone r.merged]
    refine add_rows_inv_core H r item count bi hbilt hcount b r.merged
      (hshape bi).1 (hshape bi).2 ?_ hmw hmd (fun i j => hnonneg bi i j)
      hshape hnonneg hsent ?_
    · rw [heq]
      exact hne0
    · intro i j
      rw [hsum2 i j]
      ring
  · -- newer era: the bucket rotates
    have h1 : ¬(st ≠ 0 ∧ st < b.start_time) := by
      rintro ⟨-, h2⟩
      exact absurd h2 (not_lt.mpr (le_of_lt hlt))
    have hb1 : b.add H item (some st) count
        = CountMinSketch.add_rows H { b with table := fun _ _ => 0, start_time := st }
            item count := by
      show (if st ≠ 0 ∧ st < b.start_time then b
        else if st ≠ 0 ∧ b.start_time < st then
          CountMinSketch.add_rows H { b with table := fun _ _ => 0, start_time := st } item count
        else CountMinSketch.add_rows H b item count) = _
      rw [if_neg h1, if_pos ⟨hne0, hlt⟩]
    by_cases hz : b.start_time = 0
    · -- sentinel bucket: it was never initialised, hence empty, and merged
      -- is not decremented
      have hmg : (if b.start_time ≠ 0 ∧ b.start_time < st then r.merged.minus b else r.merged)
          = r.merged := by
        rw [if_neg]
        rintro ⟨h3, -⟩
        exact h3 hz
      rw [hadd, hb1, hmg, hnone r.merged]
      refine add_rows_inv_core H r item count bi hbilt hcount _ r.merged
        (hshape bi).1 (hshape bi).2 hne0 hmw hmd (fun i j => le_refl 0)
        hshape hnonneg hsent ?_
      intro i j
      have hb0 : b.table i j = 0 := hsent bi hz i j
      rw [hsum2 i j]
      show _ = _ - b.table i j + 0
      omega
    · -- genuine rotation: the old bucket is subtracted from merged first
      have hminus : r.merged.minus b
          = { r.merged with table := fun i j => max (r.merged.table i j - b.table i j) 0 } := by
        unfold CountMinSketch.minus
        rw [if_pos ⟨by rw [hmw, (hshape bi).1], by rw [hmd, (hshape bi).2]⟩]
      have hmg : (if b.start_time ≠ 0 ∧ b.start_time < st then r.merged.minus b else r.merged)
          = { r.merged with table := fun i j => max (r.merged.table i j - b.table i j) 0 } := by
        rw [if_pos ⟨hz, hlt⟩, hminus]
      rw [hadd, hb1, hmg, hnone]
      refine add_rows_inv_core H r item count bi hbilt hcount _ _
        (hshape bi).1 (hshape bi).2 hne0 hmw hmd (fun i j => le_refl 0)
        hshape hnonneg hsent ?_
      intro i j
      have hge : b.table i j ≤ r.merged.table i j := by
        rw [hsum2 i j]
        exact Finset.single_le_sum (fun x _ => hnonneg x i j) (Finset.mem_range.mpr hbilt)
      show max (r.merged.table i j - b.table i j) 0 = _ - b.table i j + 0
      rw [hsum2 i j] at hge ⊢
      omega

/-- Invariant preservation along any sequence of well-formed adds. -/
theorem applyAdds_inv (H : ℤ → String → ℤ) :
    ∀ (L : List (String × ℤ × ℤ)) (r : RollingCMS),
    0 < r.num_buckets → r.Inv → RollingCMS.okSeq H r L = true →
    (RollingCMS.applyAdds H r L).Inv := by
  intro L
  induction L with
  | nil =>
    intro r _ hInv _
    exact hInv
  | cons a rest ih =>
    intro r hn hInv hok
    have hok2 : (r.okAdd a && RollingCMS.okSeq H (r.add H a.1 a.2.1 a.2.2) rest) = true := hok
    rw [Bool.and_eq_true] at hok2
    have hok3 : r.okAdd a = true := hok2.1
    unfold RollingCMS.okAdd at hok3
    simp only [Bool.and_eq_true, decide_eq_true_eq] at hok3
    show (RollingCMS.applyAdds H (r.add H a.1 a.2.1 a.2.2) rest).Inv
    refine ih _ hn ?_ hok2.2
    exact add_inv H r a.1 a.2.1 a.2.2 hn
      ⟨fun b => ⟨(hInv.1 b).1, (hInv.1 b).2⟩, hInv.2.1, hInv.2.2.1, hInv.2.2.2.1, hInv.2.2.2.2⟩
      hok3.1.1 hok3.1.2 hok3.2

end IMP

/-- Claim C1, counterexample: in the impression RollingCMS (window 30, bucket
10, 1×1 table), a fresh add at t=50 followed by a STALE add at t=10 (its era
10 is older than the stored era 50 of ring slot 1) leaves `merged` at 2 while
the buckets sum to 1: the stale add is ignored by the bucket but still added
to `merged`, so "merged cell-wise equals the sum of the buckets after each
completed add, including stale-era adds" is false. -/
theorem C1_counterexample :
    impStale.merged.table 0 0 = 2 ∧
    (∑ b in Finset.range impStale.num_buckets, (impStale.buckets b).table 0 0) = 1 ∧
    ¬ impStale.mergedEqSum := by
  refine ⟨by decide, by decide, fun h => ?_⟩
  have h00 := h 0 0
  rw [show impStale.merged.table 0 0 = 2 from by decide,
    show (∑ b in Finset.range impStale.num_buckets, (impStale.buckets b).table 0 0) = 1
      from by decide] at h00
  exact absurd h00 (by decide)

/-- Claim C1, amended: for every RollingCMS and every finite sequence of adds
in which each call has a nonnegative count, an era strictly greater than the
never-initialised sentinel 0 (i.e. `timestamp ≥ bucket_size`), and an era at
least as new as the one stored in its target bucket (no stale add), after
each completed add the merged sketch cell-wise equals the sum of the tables
of all per-bucket CMS instances. -/
theorem C1_amended :
    ∀ (H : ℤ → String → ℤ) (w bs width depth : ℕ) (L : List (String × ℤ × ℤ)),
    IMP.RollingCMS.okSeq H (IMP.RollingCMS.init w bs width depth) L = true →
    (IMP.RollingCMS.applyAdds H (IMP.RollingCMS.init w bs width depth) L).mergedEqSum := by
  intro H w bs width depth L hok
  exact (IMP.applyAdds_inv H L _ (Nat.succ_pos _) (IMP.init_inv w bs width depth) hok).2.2.2.2

/-- Claim C1, witness: a fresh-then-same-era pair of adds on a small
RollingCMS is a well-formed sequence, and the merged sketch equals the bucket
sum afterwards. -/
theorem C1_witness :
    IMP.RollingCMS.okSeq H0 (IMP.RollingCMS.init 30 10 1 1) [("k", 50, 1), ("k", 55, 2)] = true ∧
    (IMP.RollingCMS.applyAdds H0 (IMP.RollingCMS.init 30 10 1 1)
      [("k", 50, 1), ("k", 55, 2)]).mergedEqSum :=
  ⟨by decide, C1_amended H0 30 10 1 1 [("k", 50, 1), ("k", 55, 2)] (by decide)⟩

namespace WH

theorem lookup_alUpdate_self (k v : ℤ) :
    ∀ l : List (ℤ × ℤ), (alUpdate l k v).lookup k = some v := by
  intro l
  induction l with
  | nil => simp [alUpdate, List.lookup]
  | cons p rest ih =>
    rcases p with ⟨k1, v1⟩
    unfold alUpdate
    by_cases h : k1 = k
    · rw [if_pos h]
      simp [List.lookup]
    · rw [if_neg h]
      have hb : (k == k1) = false := by
        simp [Ne.symm h]
      simp [List.lookup, hb, ih]

theorem lookup_alUpdate_ne (k v k2 : ℤ) (hne : k2 ≠ k) :
    ∀ l : List (ℤ × ℤ), (alUpdate l k v).lookup k2 = l.lookup k2 := by
  intro l
  induction l with
  | nil =>
    have hb : (k2 == k) = false := by simp [hne]
    simp [alUpdate, List.lookup, hb]
  | cons p rest ih =>
    rcases p with ⟨k1, v1⟩
    unfold alUpdate
    by_cases h : k1 = k
    · rw [if_pos h]
      subst h
      have hb : (k2 == k1) = false := by simp [hne]
      simp [List.lookup, hb]
    · rw [if_neg h]
      simp [List.lookup, ih]

theorem lookup_alErase_ne (k k2 : ℤ) (hne : k2 ≠ k) :
    ∀ l : List (ℤ × ℤ), (alErase l k).lookup k2 = l.lookup k2 := by
  intro l
  induction l with
  | nil => rfl
  | cons p rest ih =>
    rcases p with ⟨k1, v1⟩
    unfold alErase
    by_cases h : k1 = k
    · rw [if_pos h]
      subst h
      have hb : (k2 == k1) = false := by simp [hne]
      simp [List.lookup, hb]
    · rw [if_neg h]
      simp [List.lookup, ih]

theorem lookup_eq_none_of_not_mem_keys (k : ℤ) :
    ∀ l : List (ℤ × ℤ), k ∉ l.map Prod.fst → l.lookup k = none := by
  intro l
  induction l with
  | nil => intro _; rfl
  | cons p rest ih =>
    rcases p with ⟨k1, v1⟩
    intro h
    rw [List.map_cons] at h
    have h1 : k ≠ k1 := fun hh => h (by rw [hh]; exact List.mem_cons_self _ _)
    have h2 : k ∉ rest.map Prod.fst := fun hh => h (List.mem_cons_of_mem _ hh)
    have hb : (k == k1) = false := by simp [h1]
    simp [List.lookup, hb, ih h2]

theorem lookup_alErase_self (k : ℤ) :
    ∀ l : List (ℤ × ℤ), (l.map Prod.fst).Nodup → (alErase l k).lookup k = none := by
  intro l
  induction l with
  | nil => intro _; rfl
  | cons p rest ih =>
    rcases p with ⟨k1, v1⟩
    intro hnd
    rw [List.map_cons, List.nodup_cons] at hnd
    unfold alErase
    by_cases h : k1 = k
    · rw [if_pos h]
      subst h
      exact lookup_eq_none_of_not_mem_keys _ _ hnd.1
    · rw [if_neg h]
      have hb : (k == k1) = false := by simp [Ne.symm h]
      simp [List.lookup, hb, ih hnd.2]

theorem lookup_eq_none_of_alErase_nil (k k2 : ℤ) (hne : k2 ≠ k) :
    ∀ l : List (ℤ × ℤ), alErase l k = [] → l.lookup k2 = none := by
  intro l
  induction l with
  | nil => intro _; rfl
  | cons p rest ih =>
    rcases p with ⟨k1, v1⟩
    intro h
    unfold alErase at h
    by_cases hk : k1 = k
    · rw [if_pos hk] at h
      subst h
      subst hk
      have hb : (k2 == k1) = false := by simp [hne]
      simp [List.lookup, hb]
    · rw [if_neg hk] at h
      exact absurd h (List.cons_ne_nil _ _)

end WH

namespace WH

theorem get_warehouse_stock_congr (s1 s : InventorySystem)
    (h : s1.item_warehouse_stocks = s.item_warehouse_stocks) (item wh : ℤ) :
    s1.get_warehouse_stock item wh = s.get_warehouse_stock item wh := by
  unfold InventorySystem.get_warehouse_stock
  rw [h]

theorem moveToEnd_lastUnique (key : DedupKey) (pre : List DedupKey)
    (h2 : key ∉ pre) : moveToEnd (pre ++ [key]) key = pre ++ [key] := by
  unfold moveToEnd
  rw [List.erase_append_right _ h2, List.erase_cons_head]
  simp

theorem dedup_request_miss_eq (hashKey : DedupKey → ℕ) (s : InventorySystem)
    (op : StockOp) (item ts : ℤ) (whs : List ℤ)
    (hmiss : (op, item, ts, whs)
      ∉ s.request_cache (hashKey (op, item, ts, whs) % s.num_locks)) :
    s.dedup_request hashKey op item ts whs
      = (false, { s with request_cache :=
          (Function.update s.request_cache (hashKey (op, item, ts, whs) % s.num_locks)
            (if s.max_requests_per_cache
                < (s.request_cache (hashKey (op, item, ts, whs) % s.num_locks)
                    ++ [(op, item, ts, whs)]).length
              then (s.request_cache (hashKey (op, item, ts, whs) % s.num_locks)
                    ++ [(op, item, ts, whs)]).drop 1
              else s.request_cache (hashKey (op, item, ts, whs) % s.num_locks)
                    ++ [(op, item, ts, whs)])) }) := by
  unfold InventorySystem.dedup_request
  dsimp only
  rw [if_neg hmiss]

theorem dedup_request_hit (hashKey : DedupKey → ℕ) (s2 : InventorySystem)
    (op : StockOp) (item ts : ℤ) (whs : List ℤ) (pre : List DedupKey)
    (hc : s2.request_cache (hashKey (op, item, ts, whs) % s2.num_locks)
      = pre ++ [(op, item, ts, whs)])
    (hpre : (op, item, ts, whs) ∉ pre) :
    s2.dedup_request hashKey op item ts whs = (true, s2) := by
  unfold InventorySystem.dedup_request
  dsimp only
  rw [if_pos (by rw [hc]; exact List.mem_append_right _ (List.mem_singleton_self _))]
  rw [hc, moveToEnd_lastUnique _ _ hpre, ← hc, Function.update_eq_self]

theorem cacheAfterMiss (s : InventorySystem) (key : DedupKey) (i : ℕ)
    (hmiss : key ∉ s.request_cache i) (hcap : 1 ≤ s.max_requests_per_cache) :
    ∃ pre, (if s.max_requests_per_cache < (s.request_cache i ++ [key]).length
        then (s.request_cache i ++ [key]).drop 1 else s.request_cache i ++ [key])
      = pre ++ [key] ∧ key ∉ pre := by
  split
  · rename_i hover
    cases hcache : s.request_cache i with
    | nil =>
      rw [hcache] at hover
      simp at hover
      omega
    | cons x xs =>
      refine ⟨xs, rfl, ?_⟩
      rw [hcache] at hmiss
      intro hkx
      exact hmiss (List.mem_cons_of_mem _ hkx)
  · exact ⟨s.request_cache i, rfl, hmiss⟩

theorem dedup_request_num_locks (hashKey : DedupKey → ℕ) (s : InventorySystem)
    (op : StockOp) (item ts : ℤ) (whs : List ℤ) :
    (s.dedup_request hashKey op item ts whs).2.num_locks = s.num_locks := by
  unfold InventorySystem.dedup_request
  dsimp only
  split <;> rfl

theorem dedup_request_cap (hashKey : DedupKey → ℕ) (s : InventorySystem)
    (op : StockOp) (item ts : ℤ) (whs : List ℤ) :
    (s.dedup_request hashKey op item ts whs).2.max_requests_per_cache
      = s.max_requests_per_cache := by
  unfold InventorySystem.dedup_request
  dsimp only
  split <;> rfl

theorem dedup_request_stocks (hashKey : DedupKey → ℕ) (s : InventorySystem)
    (op : StockOp) (item ts : ℤ) (whs : List ℤ) :
    (s.dedup_request hashKey op item ts whs).2.item_warehouse_stocks
      = s.item_warehouse_stocks := by
  unfold InventorySystem.dedup_request
  dsimp only
  split <;> rfl

end WH

namespace WH

theorem remove_stock_inner_frame (s : InventorySystem) (item qty wh : ℤ)
    (s2 : InventorySystem) (b : Bool)
    (h : s.remove_stock_inner item qty wh = some (s2, b)) :
    s2.request_cache = s.request_cache ∧ s2.num_locks = s.num_locks ∧
    s2.max_requests_per_cache = s.max_requests_per_cache := by
  unfold InventorySystem.remove_stock_inner at h
  rcases hsi : s.item_warehouse_stocks item with _ | inner
  · rw [hsi] at h
    dsimp only at h
    simp only [Option.some.injEq, Prod.mk.injEq] at h
    obtain ⟨h1, -⟩ := h
    subst h1
    exact ⟨rfl, rfl, rfl⟩
  · rw [hsi] at h
    dsimp only at h
    split at h
    · simp only [Option.some.injEq, Prod.mk.injEq] at h
      obtain ⟨h1, -⟩ := h
      subst h1
      exact ⟨rfl, rfl, rfl⟩
    · split at h
      · split at h
        · split at h <;>
            (simp only [Option.some.injEq, Prod.mk.injEq] at h
             obtain ⟨h1, -⟩ := h
             subst h1
             exact ⟨rfl, rfl, rfl⟩)
        · exact absurd h (by simp)
      · simp only [Option.some.injEq, Prod.mk.injEq] at h
        obtain ⟨h1, -⟩ := h
        subst h1
        exact ⟨rfl, rfl, rfl⟩

theorem transfer_stock_inner_frame (s : InventorySystem) (item fw tw qty : ℤ)
    (s2 : InventorySystem) (b : Bool)
    (h : s.transfer_stock_inner item fw tw qty = some (s2, b)) :
    s2.request_cache = s.request_cache ∧ s2.num_locks = s.num_locks ∧
    s2.max_requests_per_cache = s.max_requests_per_cache := by
  unfold InventorySystem.transfer_stock_inner at h
  rcases hri : s.remove_stock_inner item qty fw with _ | ⟨sr, br⟩
  · rw [hri] at h
    exact absurd h (by simp)
  · rw [hri] at h
    have hfr := remove_stock_inner_frame s item qty fw sr br hri
    cases br
    · dsimp only at h
      simp only [Option.some.injEq, Prod.mk.injEq] at h
      obtain ⟨h1, -⟩ := h
      subst h1
      exact hfr
    · dsimp only at h
      simp only [Option.some.injEq, Prod.mk.injEq] at h
      obtain ⟨h1, -⟩ := h
      subst h1
      exact hfr

theorem add_stock_cache (hashKey : DedupKey → ℕ) (s : InventorySystem)
    (item qty wh ts : ℤ) :
    (s.add_stock hashKey item qty wh ts).1.request_cache
        = (s.dedup_request hashKey .ADD item ts [wh]).2.request_cache ∧
    (s.add_stock hashKey item qty wh ts).1.num_locks = s.num_locks := by
  unfold InventorySystem.add_stock
  rcases hd : s.dedup_request hashKey .ADD item ts [wh] with ⟨db, sd⟩
  have hnl : sd.num_locks = s.num_locks := by
    have := dedup_request_num_locks hashKey s .ADD item ts [wh]
    rw [hd] at this
    exact this
  cases db
  · exact ⟨rfl, hnl⟩
  · exact ⟨rfl, hnl⟩

theorem remove_stock_result_cache (hashKey : DedupKey → ℕ) (s : InventorySystem)
    (item qty wh ts : ℤ) (s1 : InventorySystem) (r1 : Bool)
    (h : s.remove_stock hashKey item qty wh ts = some (s1, r1)) :
    s1.request_cache = (s.dedup_request hashKey .DEL item ts [wh]).2.request_cache ∧
    s1.num_locks = s.num_locks := by
  unfold InventorySystem.remove_stock at h
  rcases hd : s.dedup_request hashKey .DEL item ts [wh] with ⟨db, sd⟩
  rw [hd] at h
  have hnl : sd.num_locks = s.num_locks := by
    have := dedup_request_num_locks hashKey s .DEL item ts [wh]
    rw [hd] at this
    exact this
  cases db
  · dsimp only at h
    rcases hri : sd.remove_stock_inner item qty wh with _ | ⟨s2, b2⟩
    · rw [hri] at h
      exact absurd h (by simp)
    · rw [hri] at h
      have hfr := remove_stock_inner_frame sd item qty wh s2 b2 hri
      cases b2
      · dsimp only at h
        simp only [Option.some.injEq, Prod.mk.injEq] at h
        obtain ⟨h1, -⟩ := h
        subst h1
        exact ⟨hfr.1, hfr.2.1.trans hnl⟩
      · dsimp only at h
        simp only [Option.some.injEq, Prod.mk.injEq] at h
        obtain ⟨h1, -⟩ := h
        subst h1
        exact ⟨hfr.1, hfr.2.1.trans hnl⟩
  · dsimp only at h
    simp only [Option.some.injEq, Prod.mk.injEq] at h
    obtain ⟨h1, -⟩ := h
    subst h1
    exact ⟨rfl, hnl⟩

theorem transfer_stock_result_cache (hashKey : DedupKey → ℕ) (s : InventorySystem)
    (item fw tw qty ts : ℤ) (s1 : InventorySystem) (r1 : Bool)
    (h : s.transfer_stock hashKey item fw tw qty ts = some (s1, r1)) :
    s1.request_cache = (s.dedup_request hashKey .TFR item ts [fw, tw]).2.request_cache ∧
    s1.num_locks = s.num_locks := by
  unfold InventorySystem.transfer_stock at h
  rcases hd : s.dedup_request hashKey .TFR item ts [fw, tw] with ⟨db, sd⟩
  rw [hd] at h
  have hnl : sd.num_locks = s.num_locks := by
    have := dedup_request_num_locks hashKey s .TFR item ts [fw, tw]
    rw [hd] at this
    exact this
  cases db
  · dsimp only at h
    split at h
    · simp only [Option.some.injEq, Prod.mk.injEq] at h
      obtain ⟨h1, -⟩ := h
      subst h1
      exact ⟨rfl, hnl⟩
    · rcases hti : sd.transfer_stock_inner item fw tw qty with _ | ⟨s2, b2⟩
      · rw [hti] at h
        exact absurd h (by simp)
      · rw [hti] at h
        have hfr := transfer_stock_inner_frame sd item fw tw qty s2 b2 hti
        cases b2
        · dsimp only at h
          simp only [Option.some.injEq, Prod.mk.injEq] at h
          obtain ⟨h1, -⟩ := h
          subst h1
          exact ⟨hfr.1, hfr.2.1.trans hnl⟩
        · dsimp only at h
          simp only [Option.some.injEq, Prod.mk.injEq] at h
          obtain ⟨h1, -⟩ := h
          subst h1
          exact ⟨hfr.1, hfr.2.1.trans hnl⟩
  · dsimp only at h
    simp only [Option.some.injEq, Prod.mk.injEq] at h
    obtain ⟨h1, -⟩ := h
    subst h1
    exact ⟨rfl, hnl⟩

theorem add_stock_dedup_hit (hashKey : DedupKey → ℕ) (s2 : InventorySystem)
    (item qty wh ts : ℤ) (pre : List DedupKey)
    (hc : s2.request_cache (hashKey (StockOp.ADD, item, ts, [wh]) % s2.num_locks)
      = pre ++ [(StockOp.ADD, item, ts, [wh])])
    (hpre : (StockOp.ADD, item, ts, [wh]) ∉ pre) :
    s2.add_stock hashKey item qty wh ts = (s2, true) := by
  unfold InventorySystem.add_stock
  rw [dedup_request_hit hashKey s2 .ADD item ts [wh] pre hc hpre]

theorem remove_stock_dedup_hit (hashKey : DedupKey → ℕ) (s2 : InventorySystem)
    (item qty wh ts : ℤ) (pre : List DedupKey)
    (hc : s2.request_cache (hashKey (StockOp.DEL, item, ts, [wh]) % s2.num_locks)
      = pre ++ [(StockOp.DEL, item, ts, [wh])])
    (hpre : (StockOp.DEL, item, ts, [wh]) ∉ pre) :
    s2.remove_stock hashKey item qty wh ts = some (s2, true) := by
  unfold InventorySystem.remove_stock
  rw [dedup_request_hit hashKey s2 .DEL item ts [wh] pre hc hpre]

theorem transfer_stock_dedup_hit (hashKey : DedupKey → ℕ) (s2 : InventorySystem)
    (item fw tw qty ts : ℤ) (pre : List DedupKey)
    (hc : s2.request_cache (hashKey (StockOp.TFR, item, ts, [fw, tw]) % s2.num_locks)
      = pre ++ [(StockOp.TFR, item, ts, [fw, tw])])
    (hpre : (StockOp.TFR, item, ts, [fw, tw]) ∉ pre) :
    s2.transfer_stock hashKey item fw tw qty ts = some (s2, true) := by
  unfold InventorySystem.transfer_stock
  rw [dedup_request_hit hashKey s2 .TFR item ts [fw, tw] pre hc hpre]

theorem add_stock_twice (hashKey : DedupKey → ℕ) (s : InventorySystem) (item qty wh ts : ℤ)
    (hmiss : (StockOp.ADD, item, ts, [wh])
      ∉ s.request_cache (hashKey (StockOp.ADD, item, ts, [wh]) % s.num_locks))
    (hcap : 1 ≤ s.max_requests_per_cache) :
    (s.add_stock hashKey item qty wh ts).1.add_stock hashKey item qty wh ts
      = ((s.add_stock hashKey item qty wh ts).1, true) := by
  obtain ⟨pre, hpre_eq, hpre_nin⟩ := cacheAfterMiss s (StockOp.ADD, item, ts, [wh])
    (hashKey (StockOp.ADD, item, ts, [wh]) % s.num_locks) hmiss hcap
  refine add_stock_dedup_hit hashKey _ item qty wh ts pre ?_ hpre_nin
  obtain ⟨hcache, hnl⟩ := add_stock_cache hashKey s item qty wh ts
  rw [hcache, hnl, dedup_request_miss_eq hashKey s .ADD item ts [wh] hmiss]
  dsimp only
  rw [Function.update_same]
  exact hpre_eq

theorem remove_stock_twice (hashKey : DedupKey → ℕ) (s : InventorySystem)
    (item qty wh ts : ℤ) (s1 : InventorySystem) (r1 : Bool)
    (hmiss : (StockOp.DEL, item, ts, [wh])
      ∉ s.request_cache (hashKey (StockOp.DEL, item, ts, [wh]) % s.num_locks))
    (hcap : 1 ≤ s.max_requests_per_cache)
    (h : s.remove_stock hashKey item qty wh ts = some (s1, r1)) :
    s1.remove_stock hashKey item qty wh ts = some (s1, true) := by
  obtain ⟨pre, hpre_eq, hpre_nin⟩ := cacheAfterMiss s (StockOp.DEL, item, ts, [wh])
    (hashKey (StockOp.DEL, item, ts, [wh]) % s.num_locks) hmiss hcap
  refine remove_stock_dedup_hit hashKey s1 item qty wh ts pre ?_ hpre_nin
  obtain ⟨hcache, hnl⟩ := remove_stock_result_cache hashKey s item qty wh ts s1 r1 h
  rw [hcache, hnl, dedup_request_miss_eq hashKey s .DEL item ts [wh] hmiss]
  dsimp only
  rw [Function.update_same]
  exact hpre_eq

theorem transfer_stock_twice (hashKey : DedupKey → ℕ) (s : InventorySystem)
    (item fw tw qty ts : ℤ) (s1 : InventorySystem) (r1 : Bool)
    (hmiss : (StockOp.TFR, item, ts, [fw, tw])
      ∉ s.request_cache (hashKey (StockOp.TFR, item, ts, [fw, tw]) % s.num_locks))
    (hcap : 1 ≤ s.max_requests_per_cache)
    (h : s.transfer_stock hashKey item fw tw qty ts = some (s1, r1)) :
    s1.transfer_stock hashKey item fw tw qty ts = some (s1, true) := by
  obtain ⟨pre, hpre_eq, hpre_nin⟩ := cacheAfterMiss s (StockOp.TFR, item, ts, [fw, tw])
    (hashKey (StockOp.TFR, item, ts, [fw, tw]) % s.num_locks) hmiss hcap
  refine transfer_stock_dedup_hit hashKey s1 item fw tw qty ts pre ?_ hpre_nin
  obtain ⟨hcache, hnl⟩ := transfer_stock_result_cache hashKey s item fw tw qty ts s1 r1 h
  rw [hcache, hnl, dedup_request_miss_eq hashKey s .TFR item ts [fw, tw] hmiss]
  dsimp only
  rw [Function.update_same]
  exact hpre_eq

end WH

/-- Claim C6: per-key idempotency of the inventory operations.  For each of
add_stock / remove_stock / transfer_stock, if the idempotency key is not in
its dedup cache beforehand (and the cache holds at least one entry per
stripe, as in every real configuration), running the identical call a second
time returns True and leaves the state exactly as after the first call.
Concretely (S6): two identical `add_stock(item=1, qty=10, wh=1, ts=100)`
calls give stock 10, not 20, and exactly one audit-log entry. -/
theorem C6_theorem :
    (∀ (hashKey : WH.DedupKey → ℕ) (s : WH.InventorySystem) (item qty wh ts : ℤ),
      (WH.StockOp.ADD, item, ts, [wh])
        ∉ s.request_cache (hashKey (WH.StockOp.ADD, item, ts, [wh]) % s.num_locks) →
      1 ≤ s.max_requests_per_cache →
      (s.add_stock hashKey item qty wh ts).1.add_stock hashKey item qty wh ts
        = ((s.add_stock hashKey item qty wh ts).1, true)) ∧
    (∀ (hashKey : WH.DedupKey → ℕ) (s : WH.InventorySystem) (item qty wh ts : ℤ)
      (s1 : WH.InventorySystem) (r1 : Bool),
      (WH.StockOp.DEL, item, ts, [wh])
        ∉ s.request_cache (hashKey (WH.StockOp.DEL, item, ts, [wh]) % s.num_locks) →
      1 ≤ s.max_requests_per_cache →
      s.remove_stock hashKey item qty wh ts = some (s1, r1) →
      s1.remove_stock hashKey item qty wh ts = some (s1, true)) ∧
    (∀ (hashKey : WH.DedupKey → ℕ) (s : WH.InventorySystem) (item fw tw qty ts : ℤ)
      (s1 : WH.InventorySystem) (r1 : Bool),
      (WH.StockOp.TFR, item, ts, [fw, tw])
        ∉ s.request_cache (hashKey (WH.StockOp.TFR, item, ts, [fw, tw]) % s.num_locks) →
      1 ≤ s.max_requests_per_cache →
      s.transfer_stock hashKey item fw tw qty ts = some (s1, r1) →
      s1.transfer_stock hashKey item fw tw qty ts = some (s1, true)) ∧
    (whS6b = whS6a ∧ (whS6a.add_stock hashKey0 1 10 1 100).2 = true ∧
     whS6b.get_warehouse_stock 1 1 = 10 ∧ (whS6b.item_latest_ops 1).length = 1) := by
  have h2 : whS6a.add_stock hashKey0 1 10 1 100 = (whS6a, true) :=
    WH.add_stock_twice hashKey0 whInit 1 10 1 100 (by decide) (by decide)
  refine ⟨WH.add_stock_twice, WH.remove_stock_twice, WH.transfer_stock_twice, ?_, ?_, by decide, by decide⟩
  · show (whS6a.add_stock hashKey0 1 10 1 100).1 = whS6a
    rw [h2]
  · show (whS6a.add_stock hashKey0 1 10 1 100).2 = true
    rw [h2]

/-- Claim C6, witness: the generic add_stock idempotency applied to the fresh
default inventory system at the S6 call. -/
theorem C6_witness :
    ((WH.StockOp.ADD, (1:ℤ), (100:ℤ), [(1:ℤ)])
        ∉ whInit.request_cache (hashKey0 (WH.StockOp.ADD, 1, 100, [1]) % whInit.num_locks) ∧
      1 ≤ whInit.max_requests_per_cache) ∧
    (whInit.add_stock hashKey0 1 10 1 100).1.add_stock hashKey0 1 10 1 100
      = ((whInit.add_stock hashKey0 1 10 1 100).1, true) :=
  ⟨⟨by decide, by decide⟩, C6_theorem.1 hashKey0 whInit 1 10 1 100 (by decide) (by decide)⟩

namespace WH

theorem get_warehouse_stock_update_self (sd : InventorySystem)
    (f : ℤ → Option (List (ℤ × ℤ))) (item wh : ℤ) (o : Option (List (ℤ × ℤ))) :
    InventorySystem.get_warehouse_stock
        { sd with item_warehouse_stocks := (Function.update f item o) } item wh
      = match o with
        | none => 0
        | some inner => alGet inner wh := by
  unfold InventorySystem.get_warehouse_stock
  dsimp only
  rw [Function.update_same]

theorem alGet_alUpdate_self (l : List (ℤ × ℤ)) (k v : ℤ) : alGet (alUpdate l k v) k = v := by
  unfold alGet
  rw [lookup_alUpdate_self]
  rfl

theorem alGet_alUpdate_ne (l : List (ℤ × ℤ)) (k v k2 : ℤ) (h : k2 ≠ k) :
    alGet (alUpdate l k v) k2 = alGet l k2 := by
  unfold alGet
  rw [lookup_alUpdate_ne _ _ _ h]

theorem alGet_alErase_self (l : List (ℤ × ℤ)) (k : ℤ) (hnd : (l.map Prod.fst).Nodup) :
    alGet (alErase l k) k = 0 := by
  unfold alGet
  rw [lookup_alErase_self k l hnd]
  rfl

theorem alGet_alErase_ne (l : List (ℤ × ℤ)) (k k2 : ℤ) (h : k2 ≠ k) :
    alGet (alErase l k) k2 = alGet l k2 := by
  unfold alGet
  rw [lookup_alErase_ne k k2 h l]

theorem alGet_eq_zero_of_alErase_nil (l : List (ℤ × ℤ)) (k k2 : ℤ) (h : k2 ≠ k)
    (hn : alErase l k = []) : alGet l k2 = 0 := by
  unfold alGet
  rw [lookup_eq_none_of_alErase_nil k k2 h l hn]
  rfl

theorem get_warehouse_stock_add_inner (s : InventorySystem) (item qty wh wh2 : ℤ) :
    (s.add_stock_inner item qty wh).get_warehouse_stock item wh2
      = if wh2 = wh
        then alGet ((s.item_warehouse_stocks item).getD []) wh + qty
        else alGet ((s.item_warehouse_stocks item).getD []) wh2 := by
  have h1 : (s.add_stock_inner item qty wh).get_warehouse_stock item wh2
      = alGet (alUpdate ((s.item_warehouse_stocks item).getD []) wh
          (alGet ((s.item_warehouse_stocks item).getD []) wh + qty)) wh2 :=
    get_warehouse_stock_update_self s s.item_warehouse_stocks item wh2
      (some (alUpdate ((s.item_warehouse_stocks item).getD []) wh
        (alGet ((s.item_warehouse_stocks item).getD []) wh + qty)))
  rw [h1]
  by_cases h : wh2 = wh
  · subst h
    rw [if_pos rfl, alGet_alUpdate_self]
  · rw [if_neg h, alGet_alUpdate_ne _ _ _ _ h]

theorem transfer_tail_get (s3 : InventorySystem) (item qty ts fw tw wh : ℤ) :
    InventorySystem.get_warehouse_stock
      (InventorySystem.add_warehouse_stock_movement
        (InventorySystem.add_warehouse_stock_movement
          (InventorySystem.add_item_audit_op
            { s3 with item_transfers :=
                (Function.update s3.item_transfers item (s3.item_transfers item + qty)) }
            item qty ts StockOp.TFR [fw, tw])
          fw qty)
        tw qty)
      item wh
      = s3.get_warehouse_stock item wh :=
  get_warehouse_stock_congr _ _ rfl item wh

/-- The transfer either succeeds with both legs applied, fails with no stock
movement, or (only for `qty = 0` from a source warehouse with no entry while
the item exists) raises a `KeyError`. -/
theorem transfer_stock_spec (hashKey : DedupKey → ℕ) (s : InventorySystem)
    (item fw tw qty ts : ℤ)
    (hmiss : (s.dedup_request hashKey .TFR item ts [fw, tw]).1 = false)
    (hnd : (((s.item_warehouse_stocks item).getD []).map Prod.fst).Nodup) :
    (∃ s1, s.transfer_stock hashKey item fw tw qty ts = some (s1, true) ∧
      s1.get_warehouse_stock item fw = s.get_warehouse_stock item fw - qty ∧
      s1.get_warehouse_stock item tw = s.get_warehouse_stock item tw + qty) ∨
    (∃ s1, s.transfer_stock hashKey item fw tw qty ts = some (s1, false) ∧
      ∀ wh, s1.get_warehouse_stock item wh = s.get_warehouse_stock item wh) ∨
    (s.transfer_stock hashKey item fw tw qty ts = none ∧ qty = 0) := by
  rcases hd : s.dedup_request hashKey .TFR item ts [fw, tw] with ⟨db, sd⟩
  have hdb : db = false := by rw [hd] at hmiss; exact hmiss
  subst hdb
  have hstocks : sd.item_warehouse_stocks = s.item_warehouse_stocks := by
    have := dedup_request_stocks hashKey s .TFR item ts [fw, tw]
    rw [hd] at this
    exact this
  have hgws : ∀ wh, sd.get_warehouse_stock item wh = s.get_warehouse_stock item wh :=
    fun wh => get_warehouse_stock_congr sd s hstocks item wh
  unfold InventorySystem.transfer_stock
  rw [hd]
  dsimp only
  by_cases hfw : fw = tw
  · rw [if_pos hfw]
    exact Or.inr (Or.inl ⟨sd, rfl, hgws⟩)
  · rw [if_neg hfw]
    have htwfw : tw ≠ fw := fun h => hfw h.symm
    unfold InventorySystem.transfer_stock_inner InventorySystem.remove_stock_inner
    rw [hstocks]
    rcases hsi : s.item_warehouse_stocks item with _ | inner
    · exact Or.inr (Or.inl ⟨sd, rfl, hgws⟩)
    · rw [hsi] at hnd
      simp only [Option.getD_some] at hnd
      have hsfw : s.get_warehouse_stock item fw = alGet inner fw := by
        unfold InventorySystem.get_warehouse_stock
        rw [hsi]
      have hstw : s.get_warehouse_stock item tw = alGet inner tw := by
        unfold InventorySystem.get_warehouse_stock
        rw [hsi]
      dsimp only
      by_cases hstock : alGet inner fw < qty
      · refine Or.inr (Or.inl ⟨sd, ?_, hgws⟩)
        rw [if_pos hstock]
      · rw [if_neg hstock]
        by_cases hzero : alGet inner fw - qty = 0
        · rw [if_pos hzero]
          by_cases hsome : (inner.lookup fw).isSome = true
          · rw [if_pos hsome]
            by_cases hnil : alErase inner fw = []
            · -- the source entry is deleted and the whole item map becomes empty
              rw [if_pos hnil]
              refine Or.inl ⟨_, rfl, ?_, ?_⟩
              · rw [transfer_tail_get, get_warehouse_stock_add_inner, if_neg hfw]
                show alGet (((Function.update s.item_warehouse_stocks item none) item).getD [])
                    fw = s.get_warehouse_stock item fw - qty
                rw [Function.update_same, hsfw]
                show (0:ℤ) = alGet inner fw - qty
                omega
              · rw [transfer_tail_get, get_warehouse_stock_add_inner, if_pos rfl]
                show alGet (((Function.update s.item_warehouse_stocks item none) item).getD [])
                    tw + qty = s.get_warehouse_stock item tw + qty
                rw [Function.update_same, hstw]
                have h0 : alGet inner tw = 0 :=
                  alGet_eq_zero_of_alErase_nil inner fw tw htwfw hnil
                show (0:ℤ) + qty = alGet inner tw + qty
                omega
            · -- the source entry is deleted, other warehouses remain
              rw [if_neg hnil]
              refine Or.inl ⟨_, rfl, ?_, ?_⟩
              · rw [transfer_tail_get, get_warehouse_stock_add_inner, if_neg hfw]
                show alGet (((Function.update s.item_warehouse_stocks item
                    (some (alErase inner fw))) item).getD [])
                    fw = s.get_warehouse_stock item fw - qty
                rw [Function.update_same, hsfw]
                show alGet (alErase inner fw) fw = alGet inner fw - qty
                rw [alGet_alErase_self inner fw hnd]
                omega
              · rw [transfer_tail_get, get_warehouse_stock_add_inner, if_pos rfl]
                show alGet (((Function.update s.item_warehouse_stocks item
                    (some (alErase inner fw))) item).getD [])
                    tw + qty = s.get_warehouse_stock item tw + qty
                rw [Function.update_same, hstw]
                show alGet (alErase inner fw) tw + qty = alGet inner tw + qty
                rw [alGet_alErase_ne inner fw tw htwfw]
          · -- KeyError: qty = 0 against a source with no entry
            rw [if_neg hsome]
            refine Or.inr (Or.inr ⟨rfl, ?_⟩)
            have hlf : inner.lookup fw = none := by
              cases hlk : inner.lookup fw with
              | none => rfl
              | some v =>
                rw [hlk] at hsome
                simp at hsome
            have h0 : alGet inner fw = 0 := by
              unfold alGet
              rw [hlf]
              rfl
            omega
        · -- ordinary partial removal from the source
          rw [if_neg hzero]
          refine Or.inl ⟨_, rfl, ?_, ?_⟩
          · rw [transfer_tail_get, get_warehouse_stock_add_inner, if_neg hfw]
            show alGet (((Function.update s.item_warehouse_stocks item
                (some (alUpdate inner fw (alGet inner fw - qty)))) item).getD [])
                fw = s.get_warehouse_stock item fw - qty
            rw [Function.update_same, hsfw]
            show alGet (alUpdate inner fw (alGet inner fw - qty)) fw = alGet inner fw - qty
            rw [alGet_alUpdate_self]
          · rw [transfer_tail_get, get_warehouse_stock_add_inner, if_pos rfl]
            show alGet (((Function.update s.item_warehouse_stocks item
                (some (alUpdate inner fw (alGet inner fw - qty)))) item).getD [])
                tw + qty = s.get_warehouse_stock item tw + qty
            rw [Function.update_same, hstw]
            show alGet (alUpdate inner fw (alGet inner fw - qty)) tw + qty
              = alGet inner tw + qty
            rw [alGet_alUpdate_ne _ _ _ _ htwfw]

end WH

/-- Claim C3: transfer_stock is atomic.  For every state and every
non-duplicate call (on an item whose per-warehouse dict has well-formed,
duplicate-free keys, as every dict has), either it returns True and the
source's stock drops by qty while the destination's rises by qty, or it
returns False and no warehouse's stock of the item changes — except for the
degenerate `qty = 0` call against a source warehouse with no entry, which
raises a KeyError (modelled as `none`) and changes nothing.  Concretely (S4):
with stock A=5, B=0, a transfer of 6 fails leaving A=5, B=0, and a transfer
of 3 succeeds leaving A=2, B=3. -/
theorem C3_theorem :
    (∀ (hashKey : WH.DedupKey → ℕ) (s : WH.InventorySystem) (item fw tw qty ts : ℤ),
      (s.dedup_request hashKey .TFR item ts [fw, tw]).1 = false →
      (((s.item_warehouse_stocks item).getD []).map Prod.fst).Nodup →
      (∃ s1, s.transfer_stock hashKey item fw tw qty ts = some (s1, true) ∧
        s1.get_warehouse_stock item fw = s.get_warehouse_stock item fw - qty ∧
        s1.get_warehouse_stock item tw = s.get_warehouse_stock item tw + qty) ∨
      (∃ s1, s.transfer_stock hashKey item fw tw qty ts = some (s1, false) ∧
        ∀ wh, s1.get_warehouse_stock item wh = s.get_warehouse_stock item wh) ∨
      (s.transfer_stock hashKey item fw tw qty ts = none ∧ qty = 0)) ∧
    (whS4.get_warehouse_stock 1 1 = 5 ∧ whS4.get_warehouse_stock 1 2 = 0 ∧
     whS4.transfer_stock hashKey0 1 1 2 6 200 = some (whS4a, false) ∧
     whS4a.get_warehouse_stock 1 1 = 5 ∧ whS4a.get_warehouse_stock 1 2 = 0 ∧
     whS4a.transfer_stock hashKey0 1 1 2 3 300 = some (whS4b, true) ∧
     whS4b.get_warehouse_stock 1 1 = 2 ∧ whS4b.get_warehouse_stock 1 2 = 3) :=
  ⟨WH.transfer_stock_spec,
   by decide, by decide, rfl, by decide, by decide, rfl, by decide, by decide⟩

/-- Claim C3, witness: the atomicity disjunction applied to the concrete S4
state (stock A=5) for a transfer of 3 units from warehouse 1 to warehouse 2. -/
theorem C3_witness :
    ((whS4a.dedup_request hashKey0 .TFR 1 300 [1, 2]).1 = false ∧
      (((whS4a.item_warehouse_stocks 1).getD []).map Prod.fst).Nodup) ∧
    ((∃ s1, whS4a.transfer_stock hashKey0 1 1 2 3 300 = some (s1, true) ∧
        s1.get_warehouse_stock 1 1 = whS4a.get_warehouse_stock 1 1 - 3 ∧
        s1.get_warehouse_stock 1 2 = whS4a.get_warehouse_stock 1 2 + 3) ∨
      (∃ s1, whS4a.transfer_stock hashKey0 1 1 2 3 300 = some (s1, false) ∧
        ∀ wh, s1.get_warehouse_stock 1 wh = whS4a.get_warehouse_stock 1 wh) ∨
      (whS4a.transfer_stock hashKey0 1 1 2 3 300 = none ∧ (3:ℤ) = 0)) :=
  ⟨⟨by decide, by decide⟩,
   C3_theorem.1 hashKey0 whS4a 1 1 2 3 300 (by decide) (by decide)⟩

/-- Claim C3, counterexample: a non-duplicate `transfer_stock(item=1, from=3,
to=2, qty=0, ts=400)` on a state where item 1 exists (warehouse 1 holds 5) but
warehouse 3 has no entry returns NEITHER True nor False — the underlying
`del inner[3]` raises `KeyError` (modelled as `none`), refuting "either it
returns True ... or it returns False" as stated. -/
theorem C3_counterexample :
    (whS4.dedup_request hashKey0 .TFR 1 400 [3, 2]).1 = false ∧
    whS4.item_warehouse_stocks 1 = some [(1, 5)] ∧
    whS4.transfer_stock hashKey0 1 3 2 0 400 = none :=
  ⟨by decide, by decide, rfl⟩
